import Mathlib

/-!
# Verification of the table-dashboard scanner, parser and aggregation engine

A shallow embedding of the core of the `table-dashboard` plugin
(`src/utils/scanner.ts`, `src/main.ts`) with proofs about its
specification.  JavaScript strings are modelled by Lean `String`
(or `List Char` where a character-level recursion is needed),
JavaScript numbers by `ℚ` (the code's arithmetic here is exact:
integer counts, decimal parsing, one division), `undefined` by
`Option`, and JavaScript truthiness of optional string fields by
`truthyS` (absent or empty string is falsy).  Calendar dates are
modelled at day granularity; the host `moment` library's "start of
day/week/month/year of now" values are fields of an abstract
`MomentNow` record, since they depend on the evaluation clock.
-/

/-! ## JavaScript primitives -/

/-- Truthiness of an optional string field: `undefined` and `""` are falsy. -/
def truthyS (o : Option String) : Bool :=
  match o with
  | none => false
  | some s => s ≠ ""

/-- `o || d` on an optional string field (JS `||` falls through on `""`). -/
def jsOr (o : Option String) (d : String) : String :=
  match o with
  | none => d
  | some s => if s = "" then d else s

/-- `sub` occurs in `l` starting at some position. -/
def occursIn (sub : List Char) : List Char → Bool
  | [] => sub.isEmpty
  | c :: rest => sub.isPrefixOf (c :: rest) || occursIn sub rest

/-- `s.includes(sub)`: substring test. -/
def jsIncludes (s sub : String) : Bool :=
  occursIn sub.data s.data

/-- The whitespace class used by `parseInt`/`parseFloat` and by the
separator regex `\s` (the common members; exotic Unicode spaces are
out of the model). -/
def isSpaceJS (c : Char) : Bool :=
  c = ' ' ∨ c = '\t' ∨ c = '\n' ∨ c = '\r' ∨ c = '\x0b' ∨ c = '\x0c'

def isDigitCh (c : Char) : Bool :=
  '0' ≤ c ∧ c ≤ '9'

/-- JS `trim` on a character list: drop whitespace from both ends. -/
def trimList (cs : List Char) : List Char :=
  ((cs.dropWhile isSpaceJS).reverse.dropWhile isSpaceJS).reverse

/-- `s.trim()`. -/
def jsTrim (s : String) : String :=
  (trimList s.data).asString

/-- `s.toLowerCase()` (per character; the locale-independent map). -/
def jsToLower (s : String) : String :=
  (s.data.map Char.toLower).asString

/-- `s.startsWith(pre)`. -/
def jsStartsWith (s pre : String) : Bool :=
  pre.data.isPrefixOf s.data

/-- `s.endsWith(suf)`. -/
def jsEndsWith (s suf : String) : Bool :=
  suf.data.reverse.isPrefixOf s.data.reverse

/-- `s.slice(n)` / drop the first `n` characters. -/
def strDrop (s : String) (n : ℕ) : String :=
  (s.data.drop n).asString

/-- Drop the last `n` characters. -/
def strDropRight (s : String) (n : ℕ) : String :=
  ((s.data.reverse.drop n).reverse).asString

/-- `s.split(sep)` for a single-character separator (every split in
the source uses one of `"|"`, `"\n"`, `":"`). -/
def jsSplitChar (sep : Char) : List Char → List (List Char)
  | [] => [[]]
  | c :: rest =>
    if c = sep then [] :: jsSplitChar sep rest
    else
      match jsSplitChar sep rest with
      | [] => [[c]]
      | p :: ps => (c :: p) :: ps

/-- `s.split(sep)` on strings, single-character separator. -/
def jsSplitOnChar (s : String) (sep : Char) : List String :=
  (jsSplitChar sep s.data).map List.asString

/-- `parts.join(sep)` for a single-character separator. -/
def strJoinWith (sep : Char) (parts : List String) : String :=
  (List.intercalate [sep] (parts.map String.data)).asString

def digitVal (c : Char) : ℕ := c.toNat - 48

/-- The natural number denoted by a digit run. -/
def natOfDigits (ds : List Char) : ℕ :=
  ds.foldl (fun acc c => acc * 10 + digitVal c) 0

/-- `parseInt(s, 10)`: skip leading whitespace, optional sign, then a
(nonempty) digit prefix; `none` models `NaN`. -/
def jsParseInt (s : String) : Option ℤ :=
  let cs := s.data.dropWhile isSpaceJS
  let sgn : ℤ := match cs with
    | '-' :: _ => -1
    | _ => 1
  let cs2 := match cs with
    | '-' :: r => r
    | '+' :: r => r
    | r => r
  let ds := cs2.takeWhile isDigitCh
  if ds = [] then none else some (sgn * (natOfDigits ds : ℤ))

/-- Exponent part of `parseFloat` (after `e`/`E`). -/
def parseExpPart (r : List Char) : Option ℤ :=
  let sgn : ℤ := match r with
    | '-' :: _ => -1
    | _ => 1
  let r2 := match r with
    | '-' :: t => t
    | '+' :: t => t
    | t => t
  let ds := r2.takeWhile isDigitCh
  if ds = [] then none else some (sgn * (natOfDigits ds : ℤ))

/-- `parseFloat(s)`: longest valid decimal prefix after leading
whitespace — optional sign, digits with optional fraction, optional
exponent; `none` models `NaN` (the `Infinity` literals are out of the
model). -/
def jsParseFloat (s : String) : Option ℚ :=
  let cs := s.data.dropWhile isSpaceJS
  let sgn : ℚ := match cs with
    | '-' :: _ => -1
    | _ => 1
  let cs2 := match cs with
    | '-' :: r => r
    | '+' :: r => r
    | r => r
  let intDs := cs2.takeWhile isDigitCh
  let rest := cs2.drop intDs.length
  let fracDs := match rest with
    | '.' :: r => r.takeWhile isDigitCh
    | _ => []
  let rest2 := match rest with
    | '.' :: r => r.drop fracDs.length
    | r => r
  if intDs = [] ∧ fracDs = [] then none
  else
    let base : ℚ := sgn * ((natOfDigits intDs : ℚ) + (natOfDigits fracDs : ℚ) / (10 : ℚ) ^ fracDs.length)
    match rest2 with
    | 'e' :: r => match parseExpPart r with
      | some e => some (base * (10 : ℚ) ^ e)
      | none => some base
    | 'E' :: r => match parseExpPart r with
      | some e => some (base * (10 : ℚ) ^ e)
      | none => some base
    | _ => some base

/-- Strip one pair of matching surrounding quotes from a directive
value (`parseTrackerConfig`): `"..."` or `'...'`. -/
def stripQuotes (v : String) : String :=
  if (jsStartsWith v "\"" ∧ jsEndsWith v "\"") ∨ (jsStartsWith v "\x27" ∧ jsEndsWith v "\x27") then
    strDropRight (strDrop v 1) 1
  else v

/-- Shared line shape of the config parsers: trim; blank lines and
`#` comments yield `none`; a line without a colon yields `none`;
otherwise the key is the text before the first colon (trimmed,
lowercased) and the value the text after it (trimmed). -/
def lineKeyVal (line : String) : Option (String × String) :=
  let trimmed := jsTrim line
  if trimmed = "" then none
  else if jsStartsWith trimmed "#" then none
  else match jsSplitOnChar trimmed ':' with
    | [] => none
    | [_] => none
    | k :: rest => some (jsToLower (jsTrim k), jsTrim (strJoinWith ':' rest))

/-! ## `parseTableCells` (scanner.ts 383–394) -/

/-- `parseTableCells`: split the raw line on the pipe character, trim
every piece, drop one leading empty piece and one trailing empty
piece. -/
def parseTableCells (line : String) : List String :=
  let rawCells := (jsSplitOnChar line '|').map jsTrim
  let rawCells2 := if rawCells.head? = some "" then rawCells.tail else rawCells
  if rawCells2.getLast? = some "" then rawCells2.dropLast else rawCells2

/-- Spec-side form of the cell-splitting rule: drop at most one
leading empty piece. -/
def dropOneLeadingEmpty (l : List String) : List String :=
  if l.head? = some "" then l.tail else l

/-- Spec-side form of the cell-splitting rule: drop at most one
trailing empty piece. -/
def dropOneTrailingEmpty (l : List String) : List String :=
  if l.getLast? = some "" then l.dropLast else l

/-! ## `aggregate` (scanner.ts 193–211) -/

/-- `Math.max(...values)` on a nonempty list. -/
def maxList (values : List ℚ) : ℚ :=
  match values with
  | [] => 0
  | v :: rest => rest.foldl max v

/-- `Math.min(...values)` on a nonempty list. -/
def minList (values : List ℚ) : ℚ :=
  match values with
  | [] => 0
  | v :: rest => rest.foldl min v

/-- `aggregate(values, method)` — the method is a runtime string (the
TS union type is produced by an unchecked cast). -/
def aggregate (values : List ℚ) (method : String) : ℚ :=
  if values = [] then 0
  else if method = "count" then ((values.filter fun v => 0 < v).length : ℚ)
  else if method = "sum" then values.foldl (· + ·) 0
  else if method = "average" then (values.foldl (· + ·) 0) / (values.length : ℚ)
  else if method = "max" then maxList values
  else if method = "min" then minList values
  else values.foldl (· + ·) 0

/-! ## `countPatternMatches` (scanner.ts 216–231)

The literal branch uses JavaScript `String.prototype.split`, modelled
at character level (`jsSplit`); the regex branch delegates to the host
`RegExp` engine, modelled as an abstract partial match counter
(`none` = the pattern throws on compilation). -/

/-- JS `content.split(pattern)` for a nonempty pattern `p0 :: ptail`:
repeated leftmost search, non-overlapping. -/
def jsSplitNE (p0 : Char) (ptail : List Char) : List Char → List (List Char)
  | [] => [[]]
  | c :: rest =>
    if (p0 :: ptail).isPrefixOf (c :: rest) then
      [] :: jsSplitNE p0 ptail (rest.drop ptail.length)
    else
      match jsSplitNE p0 ptail rest with
      | [] => [[c]]
      | p :: ps => (c :: p) :: ps
termination_by l => l.length
decreasing_by
  · simp only [List.length_cons]
    have := List.length_drop ptail.length rest
    omega
  · simp

/-- JS `content.split(pattern)`: an empty pattern splits into the
one-character pieces (so the empty content yields the empty list). -/
def jsSplit (content pattern : List Char) : List (List Char) :=
  match pattern with
  | [] => content.map fun c => [c]
  | p0 :: ptail => jsSplitNE p0 ptail content

/-- `countPatternMatches(content, pattern, useRegex)`.  `regexCount`
abstracts the host regex engine: `regexCount pattern = none` models a
pattern whose compilation throws, otherwise `some f` with `f content`
the number of global matches.  The result is an integer because the
literal branch computes `parts.length - 1` in JS arithmetic. -/
def countPatternMatches (regexCount : String → Option (String → ℕ))
    (content pattern : String) (useRegex : Bool) : ℤ :=
  if useRegex then
    match regexCount pattern with
    | some f => (f content : ℤ)
    | none => 0
  else
    ((jsSplit content.data pattern.data).length : ℤ) - 1

/-- Spec-side greedy count of non-overlapping occurrences of the
nonempty pattern `p0 :: ptail`. -/
def countOcc (p0 : Char) (ptail : List Char) : List Char → ℕ
  | [] => 0
  | c :: rest =>
    if (p0 :: ptail).isPrefixOf (c :: rest) then
      countOcc p0 ptail (rest.drop ptail.length) + 1
    else
      countOcc p0 ptail rest
termination_by l => l.length
decreasing_by
  · simp only [List.length_cons]
    have := List.length_drop ptail.length rest
    omega
  · simp

/-! ## Tracker configuration (types.ts `TrackerConfig`)

All fields are optional at runtime (the TS required fields are only
enforced by validation); enum-typed fields are runtime strings
produced by unchecked casts, so they are modelled as strings. -/

structure TrackerConfig where
  type : Option String := none
  source : Option String := none
  tableTag : Option String := none
  keyColumn : Option String := none
  key : Option String := none
  valueColumn : Option String := none
  value : Option String := none
  aggregate : Option String := none
  pattern : Option String := none
  useRegex : Option Bool := none
  goal : Option ℚ := none
  goalColumn : Option String := none
  period : Option String := none
  label : Option String := none
  layout : Option String := none
  gridColumns : Option ℤ := none
deriving DecidableEq

/-! ## `extractValue` (scanner.ts 353–378) -/

/-- Match of the regex `-?\d+\.?\d*` anchored at the start of the
list: optional minus, a nonempty digit run, optionally a dot and a
digit run; the result is already `parseFloat`ed (never `NaN` for this
shape). -/
def numMatchAt (cs : List Char) : Option ℚ :=
  let neg : Bool := match cs with
    | '-' :: _ => true
    | _ => false
  let rest := match cs with
    | '-' :: r => r
    | r => r
  let intDs := rest.takeWhile isDigitCh
  if intDs = [] then none
  else
    let rest2 := rest.drop intDs.length
    let fracDs := match rest2 with
      | '.' :: r2 => r2.takeWhile isDigitCh
      | _ => []
    let mag : ℚ := (natOfDigits intDs : ℚ) + (natOfDigits fracDs : ℚ) / (10 : ℚ) ^ fracDs.length
    some (if neg then -mag else mag)

/-- Leftmost match of `-?\d+\.?\d*` (the regex engine tries each
start position left to right; all quantifiers here are greedy with no
profitable backtracking). -/
def firstNumMatch : List Char → Option ℚ
  | [] => none
  | c :: rest =>
    match numMatchAt (c :: rest) with
    | some q => some q
    | none => firstNumMatch rest

/-- `extractValue(cellValue, valueType)`. -/
def extractValue (cellValue : String) (valueType : String) : Option ℚ :=
  if cellValue = "" then none
  else if valueType = "numeric" then firstNumMatch cellValue.data
  else if valueType = "any" then (if cellValue.length > 0 then some 1 else none)
  else if jsIncludes cellValue valueType then some 1
  else none

/-! ## `extractFromTables` (scanner.ts 236–348)

The mutable loop state becomes a record, the `for` loop a `foldl`
over the lines; each `continue` is a branch that returns the state. -/

structure TableExtractionResult where
  values : List ℚ
  goal : Option ℚ
deriving DecidableEq

structure ScanState where
  values : List ℚ := []
  goal : Option ℚ := none
  inTable : Bool := false
  skippingTable : Bool := false
  headerColumns : List String := []
  keyColumnIndex : Option ℕ := none
  valueColumnIndex : Option ℕ := none
  goalColumnIndex : Option ℕ := none
  recentLines : List String := []
deriving DecidableEq

/-- Push a line onto the 5-line lookback window. -/
def pushRecent (recent : List String) (line : String) : List String :=
  let r := recent ++ [line]
  if r.length > 5 then r.tail else r

/-- Search the lookback window for the exact table-tag marker. -/
def tagFound (recent : List String) (tag : String) : Bool :=
  recent.any fun recentLine =>
    jsIncludes recentLine ("<!-- table-tag: " ++ tag ++ " -->")

/-- Header parsing on the first non-skipped line of a table: resolve
the key/value/goal column indices by case-insensitive match (a `none`
column name matches nothing, mirroring `h.toLowerCase() ===
undefined`); the goal column is only looked up when `goalColumn` is
truthy. -/
def parseHeader (cfg : TrackerConfig) (st : ScanState) (line : String) : ScanState :=
  let hdr := parseTableCells line
  let kIdx := match cfg.keyColumn with
    | none => none
    | some k => hdr.findIdx? fun h => jsToLower h = jsToLower k
  let vIdx := match cfg.valueColumn with
    | none => none
    | some k => hdr.findIdx? fun h => jsToLower h = jsToLower k
  let gIdx := if truthyS cfg.goalColumn then
      match cfg.goalColumn with
      | none => none
      | some g => hdr.findIdx? fun h => jsToLower h = jsToLower g
    else none
  { st with headerColumns := hdr, keyColumnIndex := kIdx,
            valueColumnIndex := vIdx, goalColumnIndex := gIdx, inTable := true }

/-- The key filter of a data row (scanner.ts 313–318): with a truthy
`key` the row passes only when the key column resolved to an index in
range and that cell is non-empty and contains the filter text. -/
def rowKeyPasses (cfg : TrackerConfig) (keyColumnIndex : Option ℕ) (cells : List String) : Bool :=
  if truthyS cfg.key then
    match keyColumnIndex with
    | none => false
    | some ki =>
      if ki < cells.length then
        let keyCell := cells.getD ki ""
        ¬(keyCell = "") ∧ jsIncludes keyCell (cfg.key.getD "")
      else false
  else true

/-- Value extraction of a data row (scanner.ts 320–327). -/
def dataRowValue (cfg : TrackerConfig) (cells : List String) (st : ScanState) : ScanState :=
  match st.valueColumnIndex with
  | some vi =>
    if vi < cells.length then
      let cellValue := jsTrim (cells.getD vi "")
      match extractValue cellValue (jsOr cfg.value "any") with
      | some x => { st with values := st.values ++ [x] }
      | none => st
    else st
  | none => st

/-- Goal accumulation of a data row (scanner.ts 329–336). -/
def dataRowGoal (cells : List String) (st : ScanState) : ScanState :=
  match st.goalColumnIndex with
  | some gi =>
    if gi < cells.length then
      let goalCell := jsTrim (cells.getD gi "")
      match jsParseFloat goalCell with
      | some q => { st with goal := some (st.goal.getD 0 + q) }
      | none => st
    else st
  | none => st

/-- A data row: the key filter, then value extraction, then goal
accumulation (scanner.ts 310–336). -/
def dataRow (cfg : TrackerConfig) (st : ScanState) (line : String) : ScanState :=
  let cells := parseTableCells line
  if ¬rowKeyPasses cfg st.keyColumnIndex cells then st
  else dataRowGoal cells (dataRowValue cfg cells st)

/-- The tail of a table-line step after the new-table initialisation:
the skip check, then header / separator / data row. -/
def afterInit (cfg : TrackerConfig) (st1 : ScanState) (line : String) : ScanState :=
  if st1.skippingTable then st1
  else if st1.headerColumns = [] then parseHeader cfg st1 line
  else if jsIncludes line "---" then st1
  else dataRow cfg st1 line

/-- A table line (trimmed form starts with a pipe): new-table
initialisation with the tag lookback, then the common tail. -/
def tableLineStep (cfg : TrackerConfig) (st : ScanState) (line : String) : ScanState :=
  if ¬st.inTable ∧ ¬st.skippingTable then
    afterInit cfg
      { st with headerColumns := [], keyColumnIndex := none,
                valueColumnIndex := none, goalColumnIndex := none,
                skippingTable :=
                  truthyS cfg.tableTag ∧ ¬tagFound st.recentLines (cfg.tableTag.getD "") }
      line
  else afterInit cfg st line

/-- One iteration of the line loop: update the lookback window, skip
empty lines, dispatch on "is a table line", reset the per-table state
on any other line. -/
def scanStep (cfg : TrackerConfig) (st : ScanState) (line : String) : ScanState :=
  let st := { st with recentLines := pushRecent st.recentLines line }
  if line = "" then st
  else if jsStartsWith (jsTrim line) "|" then tableLineStep cfg st line
  else if st.inTable ∨ st.skippingTable then
    { st with inTable := false, skippingTable := false, headerColumns := [] }
  else st

/-- `extractFromTables(content, config)`. -/
def extractFromTables (content : String) (cfg : TrackerConfig) : TableExtractionResult :=
  let final := (jsSplitOnChar content '\n').foldl (scanStep cfg) {}
  { values := final.values, goal := final.goal }

/-! ## Filename dates (scanner.ts 456–475)

A calendar date at day granularity.  `moment` timestamp comparison of
two day-start values agrees with lexicographic comparison of
(year, month, day), which `dateKey` encodes monotonically. -/

structure CalDate where
  year : ℕ
  month : ℕ
  day : ℕ
deriving DecidableEq

/-- Monotone encoding of a calendar date, for `isSameOrAfter`. -/
def dateKey (d : CalDate) : ℕ :=
  (d.year * 12 + d.month) * 32 + d.day

def isLeapYear (y : ℕ) : Bool :=
  (y % 4 = 0 ∧ y % 100 ≠ 0) ∨ y % 400 = 0

def daysInMonth (y m : ℕ) : ℕ :=
  if m = 1 ∨ m = 3 ∨ m = 5 ∨ m = 7 ∨ m = 8 ∨ m = 10 ∨ m = 12 then 31
  else if m = 4 ∨ m = 6 ∨ m = 9 ∨ m = 11 then 30
  else if m = 2 then (if isLeapYear y then 29 else 28)
  else 0

/-- `moment(str, format, true)` strict calendar validation. -/
def validYMD (y m d : ℕ) : Bool :=
  1 ≤ m ∧ m ≤ 12 ∧ 1 ≤ d ∧ d ≤ daysInMonth y m

/-- Days since 1970-01-01 (the civil-from-days algorithm), used where
the scanner turns a calendar day into a `moment` day for streak
arithmetic. -/
def daysFromCivil (d : CalDate) : ℤ :=
  let y : ℤ := if d.month ≤ 2 then (d.year : ℤ) - 1 else (d.year : ℤ)
  let era : ℤ := Int.fdiv y 400
  let yoe : ℤ := y - era * 400
  let mp : ℤ := Int.emod ((d.month : ℤ) + 9) 12
  let doy : ℤ := Int.fdiv (153 * mp + 2) 5 + (d.day : ℤ) - 1
  let doe : ℤ := yoe * 365 + Int.fdiv yoe 4 - Int.fdiv yoe 100 + doy
  era * 146097 + doe - 719468

/-- Shape `\d{4}-\d{2}-\d{2}` anchored at the current position. -/
def shapeYMDdash (cs : List Char) : Option (ℕ × ℕ × ℕ) :=
  match cs with
  | a :: b :: c :: d :: '-' :: e :: f :: '-' :: g :: h :: _ =>
    if isDigitCh a ∧ isDigitCh b ∧ isDigitCh c ∧ isDigitCh d ∧
       isDigitCh e ∧ isDigitCh f ∧ isDigitCh g ∧ isDigitCh h then
      some (natOfDigits [a, b, c, d], natOfDigits [e, f], natOfDigits [g, h])
    else none
  | _ => none

/-- Shape `\d{8}` (YYYYMMDD) anchored at the current position. -/
def shapeYMDcompact (cs : List Char) : Option (ℕ × ℕ × ℕ) :=
  match cs with
  | a :: b :: c :: d :: e :: f :: g :: h :: _ =>
    if isDigitCh a ∧ isDigitCh b ∧ isDigitCh c ∧ isDigitCh d ∧
       isDigitCh e ∧ isDigitCh f ∧ isDigitCh g ∧ isDigitCh h then
      some (natOfDigits [a, b, c, d], natOfDigits [e, f], natOfDigits [g, h])
    else none
  | _ => none

/-- Shape `\d{2}-\d{2}-\d{4}` (DD-MM-YYYY) anchored at the current
position; the result is already reordered to (year, month, day). -/
def shapeDMYdash (cs : List Char) : Option (ℕ × ℕ × ℕ) :=
  match cs with
  | a :: b :: '-' :: c :: d :: '-' :: e :: f :: g :: h :: _ =>
    if isDigitCh a ∧ isDigitCh b ∧ isDigitCh c ∧ isDigitCh d ∧
       isDigitCh e ∧ isDigitCh f ∧ isDigitCh g ∧ isDigitCh h then
      some (natOfDigits [e, f, g, h], natOfDigits [c, d], natOfDigits [a, b])
    else none
  | _ => none

/-- Leftmost match of an anchored shape (the regex engine's scan). -/
def firstShapeMatch (shape : List Char → Option (ℕ × ℕ × ℕ)) :
    List Char → Option (ℕ × ℕ × ℕ)
  | [] => none
  | c :: rest =>
    match shape (c :: rest) with
    | some r => some r
    | none => firstShapeMatch shape rest

/-- Strict-parse the first match of one pattern: `none` when the
pattern has no match or its first match fails calendar validation
(the source then falls through to the next pattern). -/
def tryDatePattern (shape : List Char → Option (ℕ × ℕ × ℕ)) (cs : List Char) :
    Option CalDate :=
  match firstShapeMatch shape cs with
  | some (y, m, d) => if validYMD y m d then some ⟨y, m, d⟩ else none
  | none => none

/-- `extractDateFromFilename(filename)`: the three patterns in order;
each candidate string matches exactly one of the three strict `moment`
formats, so validation is per pattern. -/
def extractDateFromFilename (filename : String) : Option CalDate :=
  match tryDatePattern shapeYMDdash filename.data with
  | some d => some d
  | none =>
    match tryDatePattern shapeYMDcompact filename.data with
    | some d => some d
    | none => tryDatePattern shapeDMYdash filename.data

/-! ## `filterFilesByPeriod` / `getStartOfPeriod` (scanner.ts 419–451) -/

/-- A markdown file as the scanner sees it: its basename and its
content (the vault read is abstracted away). -/
structure MdFile where
  basename : String
  content : String
deriving DecidableEq

/-- The `moment()` evaluation instant, reduced to the day-start
values the scanner reads off it. -/
structure MomentNow where
  startOfDay : CalDate
  startOfWeek : CalDate
  startOfMonth : CalDate
  startOfYear : CalDate
deriving DecidableEq

/-- `getStartOfPeriod(now, period)`; the default branch is
`moment(0)`, the Unix epoch. -/
def getStartOfPeriod (now : MomentNow) (period : String) : CalDate :=
  if period = "daily" then now.startOfDay
  else if period = "weekly" then now.startOfWeek
  else if period = "monthly" then now.startOfMonth
  else if period = "yearly" then now.startOfYear
  else ⟨1970, 1, 1⟩

/-- `filterFilesByPeriod(files, period)`. -/
def filterFilesByPeriod (now : MomentNow) (files : List MdFile) (period : String) :
    List MdFile :=
  if period = "all-time" then files
  else
    let startOfPeriod := getStartOfPeriod now period
    files.filter fun file =>
      match extractDateFromFilename file.basename with
      | none => false
      | some d => dateKey startOfPeriod ≤ dateKey d

/-! ## `calculateStreak` (scanner.ts 480–508)

Dates are day numbers (`ℤ`): the source's `startOf('day')`
normalisation is the identity at this granularity, and "today" is a
parameter since it reads the clock. -/

/-- `.sort((a, b) => b.valueOf() - a.valueOf())`: descending order
(modelled by insertion sort, which is a correct sort). -/
def sortDesc (dates : List ℤ) : List ℤ :=
  List.insertionSort (fun a b => b ≤ a) dates

/-- Tail of the adjacent-duplicate filter: drop each element equal to
its original predecessor `prev`. -/
def dedupAdj (prev : ℤ) : List ℤ → List ℤ
  | [] => []
  | y :: rest => if y = prev then dedupAdj y rest else y :: dedupAdj y rest

/-- The adjacent-duplicate filter (`index === 0 || !date.isSame(prev)`)
applied to the sorted list: keep each element that differs from its
predecessor. -/
def dedupSorted : List ℤ → List ℤ
  | [] => []
  | x :: rest => x :: dedupAdj x rest

/-- The countdown walk over the sorted unique dates: a date equal to
the expected day counts and decrements it, a date before the expected
day stops the walk, a later (future) date is passed over. -/
def streakWalk : List ℤ → ℤ → ℕ
  | [], _ => 0
  | d :: rest, check =>
    if d = check then streakWalk rest (check - 1) + 1
    else if d < check then 0
    else streakWalk rest check

/-- `calculateStreak(dates)` with "today" explicit. -/
def calculateStreak (today : ℤ) (dates : List ℤ) : ℕ :=
  if dates = [] then 0
  else streakWalk (dedupSorted (sortDesc dates)) today

instance : IsTotal ℤ (fun a b => b ≤ a) :=
  ⟨fun a b => le_total b a⟩

instance : IsTrans ℤ (fun a b => b ≤ a) :=
  ⟨fun _ _ _ h1 h2 => le_trans h2 h1⟩

/-! ## Orchestration (scanner.ts 38–188) -/

/-- `TrackerData` (types.ts), with the date range flattened. -/
structure TrackerData where
  count : ℚ
  goal : Option ℚ
  filesScanned : ℕ
  dateRangeStart : Option CalDate
  dateRangeEnd : Option CalDate
  streak : ℕ
  numericSum : Option ℚ := none
  timeSeries : Option (List (CalDate × ℚ)) := none
deriving DecidableEq

/-- `emptyResult(config)`. -/
def emptyResult (cfg : TrackerConfig) : TrackerData :=
  { count := 0, goal := cfg.goal, filesScanned := 0,
    dateRangeStart := none, dateRangeEnd := none, streak := 0 }

/-- `scanSingleFile(config, file)`: the file is `none` when absent,
otherwise its content (the vault read is abstracted away);
`regexCount` abstracts the host regex engine as in
`countPatternMatches`. -/
def scanSingleFile (regexCount : String → Option (String → ℕ))
    (cfg : TrackerConfig) (file : Option String) : TrackerData :=
  match file with
  | none => emptyResult cfg
  | some content =>
    if truthyS cfg.pattern then
      { count := (countPatternMatches regexCount content (cfg.pattern.getD "")
          (cfg.useRegex.getD false) : ℚ),
        goal := cfg.goal, filesScanned := 1,
        dateRangeStart := none, dateRangeEnd := none, streak := 0 }
    else
      let result := extractFromTables content cfg
      let aggregatedValue := aggregate result.values (jsOr cfg.aggregate "count")
      { count := aggregatedValue,
        goal := match result.goal with
          | some g => some g
          | none => cfg.goal,
        filesScanned := 1,
        dateRangeStart := none, dateRangeEnd := none, streak := 0,
        numericSum := if cfg.value = some "numeric" then some aggregatedValue else none }

/-- `.sort((a, b) => a.basename.localeCompare(b.basename))`, modelled
with code-point order on the basenames. -/
def sortFilesByName (files : List MdFile) : List MdFile :=
  List.insertionSort (fun a b => a.basename ≤ b.basename) files

/-- The per-file accumulator of the `scanFolder` loop. -/
structure FolderAcc where
  allValues : List ℚ := []
  dynamicGoal : Option ℚ := none
  dates : List CalDate := []
  timeSeries : List (CalDate × ℚ) := []
deriving DecidableEq

/-- One iteration of the `scanFolder` file loop. -/
def folderStep (regexCount : String → Option (String → ℕ))
    (cfg : TrackerConfig) (acc : FolderAcc) (file : MdFile) : FolderAcc :=
  let fileValue : ℚ :=
    if truthyS cfg.pattern then
      (countPatternMatches regexCount file.content (cfg.pattern.getD "")
        (cfg.useRegex.getD false) : ℚ)
    else
      aggregate (extractFromTables file.content cfg).values (jsOr cfg.aggregate "count")
  let dynamicGoal :=
    if truthyS cfg.pattern then acc.dynamicGoal
    else match acc.dynamicGoal with
      | some g => some g
      | none => (extractFromTables file.content cfg).goal
  let fileDate := extractDateFromFilename file.basename
  let dates := match fileDate with
    | some d => if 0 < fileValue then acc.dates ++ [d] else acc.dates
    | none => acc.dates
  let timeSeries := match fileDate with
    | some d => acc.timeSeries ++ [(d, fileValue)]
    | none => acc.timeSeries
  { allValues := acc.allValues ++ [fileValue], dynamicGoal := dynamicGoal,
    dates := dates, timeSeries := timeSeries }

/-- `scanFolder(config, folderPath)`: the folder listing is the
`files` argument, "today" the `today` argument. -/
def scanFolder (regexCount : String → Option (String → ℕ)) (today : ℤ)
    (now : MomentNow) (cfg : TrackerConfig) (files : List MdFile) : TrackerData :=
  let filteredFiles := filterFilesByPeriod now files (jsOr cfg.period "all-time")
  let sortedFiles := sortFilesByName filteredFiles
  let acc := sortedFiles.foldl (folderStep regexCount cfg)
    { dynamicGoal := cfg.goal }
  let streak :=
    if acc.dates ≠ [] then calculateStreak today (acc.dates.map daysFromCivil) else 0
  let totalValue := aggregate acc.allValues (jsOr cfg.aggregate "count")
  { count := totalValue,
    goal := acc.dynamicGoal,
    filesScanned := filteredFiles.length,
    dateRangeStart := sortedFiles.head?.bind fun f => extractDateFromFilename f.basename,
    dateRangeEnd := sortedFiles.getLast?.bind fun f => extractDateFromFilename f.basename,
    streak := streak,
    numericSum := if cfg.value = some "numeric" then some totalValue else none,
    timeSeries := if acc.timeSeries ≠ [] then some acc.timeSeries else none }

/-! ## Block parsing (main.ts `parseBlockAndTrackers`, 160–262) -/

/-- Block-level shared defaults.  `gridColumns` is stored through
`parseInt`; the `NaN` result is conflated with "unset", which agrees
with every read of the field (all are `||`-defaulted). -/
structure BlockConfig where
  layout : Option String := none
  gridColumns : Option ℤ := none
  source : Option String := none
  tableTag : Option String := none
deriving DecidableEq

def blockOnlyAttrs : List String := ["layout", "gridcolumns", "grid_columns"]

def widgetAttrs : List String :=
  ["type", "keycolumn", "key_column", "valuecolumn", "value_column",
   "key", "value", "pattern", "goal", "goalcolumn", "goal_column", "aggregate",
   "useregex", "use_regex", "period", "label"]

def sharedAttrs : List String := ["source", "tabletag", "table_tag"]

/-- Match of the separator regex `\n---+\s*\n?` anchored at the
current position: a newline, at least three hyphens (greedy), then
all following whitespace; the result is the remainder after the
match. -/
def sepMatchAt (cs : List Char) : Option (List Char) :=
  match cs with
  | '\n' :: rest =>
    let hs := (rest.takeWhile fun c => c = '-').length
    if 3 ≤ hs then
      let rest2 := rest.drop hs
      some (rest2.drop ((rest2.takeWhile isSpaceJS).length))
    else none
  | _ => none

/-- `source.split(/\n---+\s*\n?/)`: repeated leftmost match,
fuel-recursive (every step consumes at least one character, so fuel
equal to the length of the text always suffices and the fuel-out
branch is unreachable from `splitSepList`). -/
def splitSepGo : ℕ → List Char → List (List Char)
  | _, [] => [[]]
  | 0, l => [l]
  | fuel + 1, c :: rest =>
    if c = '\n' ∧ 3 ≤ (rest.takeWhile fun ch => ch = '-').length then
      let hs := (rest.takeWhile fun ch => ch = '-').length
      let rest2 := rest.drop hs
      [] :: splitSepGo fuel (rest2.drop ((rest2.takeWhile isSpaceJS).length))
    else
      match splitSepGo fuel rest with
      | [] => [[c]]
      | p :: ps => (c :: p) :: ps

def splitSepList (cs : List Char) : List (List Char) :=
  splitSepGo cs.length cs

/-- The state of the first-section classification loop. -/
structure ClassifyState where
  blockConfig : BlockConfig := {}
  widgetLines : List String := []
  foundWidgetAttr : Bool := false
deriving DecidableEq

/-- One iteration of the classification loop over the first section's
lines (main.ts 197–246). -/
def classifyLine (st : ClassifyState) (line : String) : ClassifyState :=
  match lineKeyVal line with
  | none =>
    if st.foundWidgetAttr then { st with widgetLines := st.widgetLines ++ [line] } else st
  | some (key, value) =>
    if key ∈ widgetAttrs then
      { st with widgetLines := st.widgetLines ++ [line], foundWidgetAttr := true }
    else if key ∈ blockOnlyAttrs then
      let bc :=
        if key = "layout" then { st.blockConfig with layout := some value }
        else { st.blockConfig with gridColumns := jsParseInt value }
      if st.foundWidgetAttr then
        { st with blockConfig := bc, widgetLines := st.widgetLines ++ [line] }
      else { st with blockConfig := bc }
    else if key ∈ sharedAttrs then
      if ¬st.foundWidgetAttr then
        let bc :=
          if key = "source" then { st.blockConfig with source := some value }
          else { st.blockConfig with tableTag := some value }
        { st with blockConfig := bc }
      else { st with widgetLines := st.widgetLines ++ [line] }
    else
      if st.foundWidgetAttr then { st with widgetLines := st.widgetLines ++ [line] } else st

/-- The section list of `parseBlockAndTrackers`: split on the
separator regex when `\n---` occurs, then drop blank sections. -/
def sourceSections (source : String) : List String :=
  (if jsIncludes source "\n---" then (splitSepList source.data).map List.asString
   else [source]).filter fun s => jsTrim s ≠ ""

/-- `parseBlockAndTrackers(source)`.  When every section is blank the
source indexes `sections[0]` out of bounds and throws; that corner is
modelled as the empty result. -/
def parseBlockAndTrackers (source : String) : BlockConfig × List String :=
  let sections := sourceSections source
  if sections.length = 1 then ({}, sections)
  else
    match sections with
    | [] => ({}, [])
    | firstSection :: restSections =>
      let st := (jsSplitOnChar firstSection '\n').foldl classifyLine {}
      let trackerSections :=
        (if st.widgetLines ≠ [] then [strJoinWith '\n' st.widgetLines] else [])
          ++ restSections.filter (fun s => s ≠ "")
      (st.blockConfig, trackerSections.filter fun s => jsTrim s ≠ "")

/-! ## Tracker config parsing and validation (main.ts 267–397, 516–535) -/

/-- The distinct `ConfigError` messages `parseTrackerConfig` and
`validateSource` can throw. -/
inductive ConfigError where
  | missingType
  | missingSource
  | folderNeedsPath
  | fileNeedsPath
  | invalidSource (s : String)
  | keyColumnRequired
  | valueColumnRequired
  | valueRequired
  | bothModes
  | neitherMode
deriving DecidableEq

/-- The parsed form of a `source` directive. -/
inductive SourceRef where
  | currentFile
  | folder (path : String)
  | file (path : String)
deriving DecidableEq

/-- `validateSource(source)` (main.ts 516–535). -/
def validateSource (source : String) : Except ConfigError SourceRef :=
  if source = "current-file" then .ok .currentFile
  else if jsStartsWith source "folder:" then
    let path := jsTrim (strDrop source 7)
    if path = "" then .error .folderNeedsPath else .ok (.folder path)
  else if jsStartsWith source "file:" then
    let path := jsTrim (strDrop source 5)
    if path = "" then .error .fileNeedsPath else .ok (.file path)
  else .error (.invalidSource source)

/-- One `key: value` line of a tracker section (main.ts 274–346):
quote stripping, then the switch on the lowercased key. -/
def parseConfigLine (c : TrackerConfig) (line : String) : TrackerConfig :=
  match lineKeyVal line with
  | none => c
  | some (key, rawValue) =>
    let value := stripQuotes rawValue
    if key = "type" then { c with type := some value }
    else if key = "source" then { c with source := some value }
    else if key = "tabletag" ∨ key = "table_tag" then { c with tableTag := some value }
    else if key = "keycolumn" ∨ key = "key_column" then { c with keyColumn := some value }
    else if key = "key" then { c with key := some value }
    else if key = "valuecolumn" ∨ key = "value_column" then { c with valueColumn := some value }
    else if key = "value" then { c with value := some value }
    else if key = "aggregate" then { c with aggregate := some value }
    else if key = "pattern" then { c with pattern := some value }
    else if key = "useregex" ∨ key = "use_regex" then
      { c with useRegex := some (jsToLower value = "true") }
    else if key = "goal" then { c with goal := (jsParseInt value).map fun n => (n : ℚ) }
    else if key = "goalcolumn" ∨ key = "goal_column" then { c with goalColumn := some value }
    else if key = "period" then { c with period := some value }
    else if key = "label" then { c with label := some value }
    else if key = "layout" then { c with layout := some value }
    else if key = "gridcolumns" ∨ key = "grid_columns" then
      { c with gridColumns := jsParseInt value }
    else c

/-- The block-default application (main.ts 349–352): for `source` and
`tableTag`, a truthy block default fills a falsy tracker value. -/
def applyBlockDefaults (c : TrackerConfig) (blockSource blockTableTag : Option String) :
    TrackerConfig :=
  let c := if truthyS blockSource ∧ ¬truthyS c.source then
      { c with source := blockSource } else c
  if truthyS blockTableTag ∧ ¬truthyS c.tableTag then
    { c with tableTag := blockTableTag } else c

/-- The validation-and-defaults tail of `parseTrackerConfig`
(main.ts 354–396): the ordered checks, then the `period` and
`aggregate` defaults. -/
def validateAndDefault (c : TrackerConfig) (defaultPeriod : String) :
    Except ConfigError TrackerConfig :=
  if ¬truthyS c.type then .error .missingType
  else if ¬truthyS c.source then .error .missingSource
  else
    match validateSource (c.source.getD "") with
    | .error e => .error e
    | .ok _ =>
      let isTableMode := truthyS c.keyColumn ∨ truthyS c.valueColumn
      if isTableMode ∧ ¬truthyS c.keyColumn then .error .keyColumnRequired
      else if isTableMode ∧ ¬truthyS c.valueColumn then .error .valueColumnRequired
      else if isTableMode ∧ ¬truthyS c.value then .error .valueRequired
      else
        let isPatternMode := truthyS c.pattern
        if isPatternMode ∧ isTableMode then .error .bothModes
        else if ¬isTableMode ∧ ¬isPatternMode then .error .neitherMode
        else .ok { c with
          period := if truthyS c.period then c.period else some defaultPeriod,
          aggregate := if truthyS c.aggregate then c.aggregate else some "count" }

/-- `parseTrackerConfig(source, blockDefaults)` end to end. -/
def parseTrackerConfig (defaultPeriod : String) (source : String)
    (blockSource blockTableTag : Option String) : Except ConfigError TrackerConfig :=
  let c := (jsSplitOnChar source '\n').foldl parseConfigLine {}
  validateAndDefault (applyBlockDefaults c blockSource blockTableTag) defaultPeriod

/-! ## Spec-side companions for the refinement claims -/

/-- The claim's classification of a raw first-section line: does it
carry a widget-marking key? -/
def isWidgetLine (line : String) : Bool :=
  match lineKeyVal line with
  | some (key, _) => key ∈ widgetAttrs
  | none => false

/-- Spec-side update of the block-only fields by one line. -/
def applyBlockOnly (bc : BlockConfig) (line : String) : BlockConfig :=
  match lineKeyVal line with
  | some (key, value) =>
    if key = "layout" then { bc with layout := some value }
    else if key = "gridcolumns" ∨ key = "grid_columns" then
      { bc with gridColumns := jsParseInt value }
    else bc
  | none => bc

/-- Spec-side update of the shared fields by one line. -/
def applyShared (bc : BlockConfig) (line : String) : BlockConfig :=
  match lineKeyVal line with
  | some (key, value) =>
    if key = "source" then { bc with source := some value }
    else if key = "tabletag" ∨ key = "table_tag" then { bc with tableTag := some value }
    else bc
  | none => bc

/-- Spec-side well-formedness of a `source` directive: `current-file`,
or `folder:`/`file:` followed by a non-empty (trimmed) path. -/
def sourceWellFormed (s : String) : Bool :=
  s = "current-file" ∨
    (jsStartsWith s "folder:" ∧ jsTrim (strDrop s 7) ≠ "") ∨
    (jsStartsWith s "file:" ∧ jsTrim (strDrop s 5) ≠ "")

/-! # Theorems -/

/-! ## Helper lemmas -/

theorem foldl_add_eq_sum (values : List ℚ) : values.foldl (· + ·) 0 = values.sum := by
  rw [List.sum_eq_foldl]

theorem foldl_max_mem : ∀ (xs : List ℚ) (x : ℚ), xs.foldl max x = x ∨ xs.foldl max x ∈ xs := by
  intro xs
  induction xs with
  | nil => intro x; left; rfl
  | cons y ys ih =>
    intro x
    rcases ih (max x y) with h | h
    · rcases max_choice x y with hm | hm
      · left; rw [List.foldl_cons, h, hm]
      · right; rw [List.foldl_cons, h, hm]; exact List.mem_cons_self y ys
    · right; exact List.mem_cons_of_mem y h

theorem le_foldl_max : ∀ (xs : List ℚ) (x : ℚ),
    x ≤ xs.foldl max x ∧ ∀ v ∈ xs, v ≤ xs.foldl max x := by
  intro xs
  induction xs with
  | nil => intro x; exact ⟨le_refl x, by simp⟩
  | cons y ys ih =>
    intro x
    obtain ⟨h1, h2⟩ := ih (max x y)
    refine ⟨le_trans (le_max_left x y) h1, ?_⟩
    intro v hv
    rcases List.mem_cons.mp hv with rfl | hv
    · exact le_trans (le_max_right x v) h1
    · exact h2 v hv

theorem foldl_min_mem : ∀ (xs : List ℚ) (x : ℚ), xs.foldl min x = x ∨ xs.foldl min x ∈ xs := by
  intro xs
  induction xs with
  | nil => intro x; left; rfl
  | cons y ys ih =>
    intro x
    rcases ih (min x y) with h | h
    · rcases min_choice x y with hm | hm
      · left; rw [List.foldl_cons, h, hm]
      · right; rw [List.foldl_cons, h, hm]; exact List.mem_cons_self y ys
    · right; exact List.mem_cons_of_mem y h

theorem foldl_min_le : ∀ (xs : List ℚ) (x : ℚ),
    xs.foldl min x ≤ x ∧ ∀ v ∈ xs, xs.foldl min x ≤ v := by
  intro xs
  induction xs with
  | nil => intro x; exact ⟨le_refl x, by simp⟩
  | cons y ys ih =>
    intro x
    obtain ⟨h1, h2⟩ := ih (min x y)
    refine ⟨le_trans h1 (min_le_left x y), ?_⟩
    intro v hv
    rcases List.mem_cons.mp hv with rfl | hv
    · exact le_trans h1 (min_le_right x v)
    · exact h2 v hv

/-! ## C1 — cell splitting -/

/-- C1: `parseTableCells` splits the raw line on the pipe character,
trims every piece, drops a single leading empty piece and a single
trailing empty piece, and preserves every interior empty piece, so an
empty interior cell never shifts the index of the cells after it; in
particular `"| A |  | 5 |"` yields exactly `["A", "", "5"]` (with
`"5"` still at index 2). -/
theorem parseTableCells_spec :
    (∀ line : String,
      parseTableCells line =
        dropOneTrailingEmpty (dropOneLeadingEmpty ((jsSplitOnChar line '|').map jsTrim))) ∧
    parseTableCells "| A |  | 5 |" = ["A", "", "5"] ∧
    parseTableCells "| A |  |  | 5 |" = ["A", "", "", "5"] ∧
    (parseTableCells "| A |  | 5 |").getD 2 "missing" = "5" := by
  refine ⟨fun line => rfl, by decide, by decide, by decide⟩

/-! ## C2 — aggregation -/

/-- C2: `aggregate` returns 0 on empty input; `count` is the number
of strictly positive values (not the length); `sum` the arithmetic
total; `average` the sum divided by the total length; `max`/`min` an
extremal element; any unrecognized method falls back to the sum. -/
theorem aggregate_spec :
    (∀ (values : List ℚ) (method : String), values = [] → aggregate values method = 0) ∧
    (∀ values : List ℚ,
      aggregate values "count" = ((values.filter fun v => 0 < v).length : ℚ)) ∧
    (∀ values : List ℚ, aggregate values "sum" = values.sum) ∧
    (∀ values : List ℚ, values ≠ [] →
      aggregate values "average" = values.sum / (values.length : ℚ)) ∧
    (∀ values : List ℚ, values ≠ [] →
      aggregate values "max" ∈ values ∧ ∀ v ∈ values, v ≤ aggregate values "max") ∧
    (∀ values : List ℚ, values ≠ [] →
      aggregate values "min" ∈ values ∧ ∀ v ∈ values, aggregate values "min" ≤ v) ∧
    (∀ (values : List ℚ) (method : String),
      method ∉ ["count", "sum", "average", "max", "min"] →
      aggregate values method = values.sum) ∧
    aggregate [10, 0] "average" = 5 ∧
    aggregate [0, 3, 0, 5] "count" = 2 := by
  have hmax : ∀ values : List ℚ, values ≠ [] →
      maxList values ∈ values ∧ ∀ v ∈ values, v ≤ maxList values := by
    intro values hne
    match values with
    | v :: rest =>
      constructor
      · rcases foldl_max_mem rest v with h | h
        · rw [maxList, h]; exact List.mem_cons_self v rest
        · rw [maxList]; exact List.mem_cons_of_mem v h
      · intro w hw
        obtain ⟨h1, h2⟩ := le_foldl_max rest v
        rcases List.mem_cons.mp hw with rfl | hw
        · exact h1
        · exact h2 w hw
  have hmin : ∀ values : List ℚ, values ≠ [] →
      minList values ∈ values ∧ ∀ v ∈ values, minList values ≤ v := by
    intro values hne
    match values with
    | v :: rest =>
      constructor
      · rcases foldl_min_mem rest v with h | h
        · rw [minList, h]; exact List.mem_cons_self v rest
        · rw [minList]; exact List.mem_cons_of_mem v h
      · intro w hw
        obtain ⟨h1, h2⟩ := foldl_min_le rest v
        rcases List.mem_cons.mp hw with rfl | hw
        · exact h1
        · exact h2 w hw
  refine ⟨?_, ?_, ?_, ?_, ?_, ?_, ?_,
    by rw [aggregate, if_neg (by decide), if_neg (by decide), if_neg (by decide), if_pos rfl]
       norm_num,
    by rw [aggregate, if_neg (by decide), if_pos rfl]; decide⟩
  · intro values method h; rw [aggregate, if_pos h]
  · intro values
    rcases eq_or_ne values [] with rfl | hne
    · simp [aggregate]
    · rw [aggregate, if_neg hne, if_pos rfl]
  · intro values
    rcases eq_or_ne values [] with rfl | hne
    · simp [aggregate]
    · rw [aggregate, if_neg hne, if_neg (by decide), if_pos rfl, foldl_add_eq_sum]
  · intro values hne
    rw [aggregate, if_neg hne, if_neg (by decide), if_neg (by decide), if_pos rfl,
      foldl_add_eq_sum]
  · intro values hne
    have h : aggregate values "max" = maxList values := by
      rw [aggregate, if_neg hne, if_neg (by decide), if_neg (by decide),
        if_neg (by decide), if_pos rfl]
    rw [h]; exact hmax values hne
  · intro values hne
    have h : aggregate values "min" = minList values := by
      rw [aggregate, if_neg hne, if_neg (by decide), if_neg (by decide),
        if_neg (by decide), if_neg (by decide), if_pos rfl]
    rw [h]; exact hmin values hne
  · intro values method hm
    rcases eq_or_ne values [] with rfl | hne
    · simp [aggregate]
    · simp only [List.mem_cons, List.mem_singleton, not_or] at hm
      obtain ⟨h1, h2, h3, h4, h5⟩ := hm
      rw [aggregate, if_neg hne, if_neg h1, if_neg h2, if_neg h3, if_neg h4,
        if_neg (by simpa using h5), foldl_add_eq_sum]

/-! ## C8 — pattern counting -/

theorem jsSplitNE_length (p0 : Char) (ptail : List Char) :
    ∀ (n : ℕ) (l : List Char), l.length ≤ n →
      (jsSplitNE p0 ptail l).length = countOcc p0 ptail l + 1 := by
  intro n
  induction n with
  | zero =>
    intro l h
    have : l = [] := List.eq_nil_of_length_eq_zero (Nat.le_zero.mp h)
    subst this
    simp [jsSplitNE, countOcc]
  | succ n ih =>
    intro l h
    match l with
    | [] => simp [jsSplitNE, countOcc]
    | c :: rest =>
      by_cases hp : (p0 :: ptail).isPrefixOf (c :: rest)
      · rw [jsSplitNE, countOcc, if_pos hp, if_pos hp]
        have hlen : (rest.drop ptail.length).length ≤ n := by
          have := List.length_drop ptail.length rest
          simp only [List.length_cons, Nat.succ_le_succ_iff] at h
          omega
        simp [ih _ hlen]
      · rw [jsSplitNE, countOcc, if_neg hp, if_neg hp]
        have hlen : rest.length ≤ n := by
          simp only [List.length_cons, Nat.succ_le_succ_iff] at h
          omega
        cases h2 : jsSplitNE p0 ptail rest with
        | nil =>
          have := ih rest hlen
          rw [h2] at this
          simp at this
        | cons p ps =>
          have := ih rest hlen
          rw [h2] at this
          simp only [List.length_cons] at this ⊢
          omega

/-- C8 (amended): with `useRegex` false the result is the number of
split parts minus one, and for every *nonempty* pattern this equals
the greedy count of non-overlapping literal occurrences; with
`useRegex` true the result is the engine's global match count, and a
pattern the engine rejects yields 0 with no exception (the embedding
is total).  The amendment restricts the occurrence-count reading to
nonempty patterns: for the empty pattern the JS split makes the
result `content.length - 1`, which is `-1` on empty content. -/
theorem countPatternMatches_amended :
    (∀ (regexCount : String → Option (String → ℕ)) (content pattern : String),
      countPatternMatches regexCount content pattern false =
        ((jsSplit content.data pattern.data).length : ℤ) - 1) ∧
    (∀ (regexCount : String → Option (String → ℕ)) (content pattern : String)
        (p0 : Char) (ptail : List Char),
      pattern.data = p0 :: ptail →
      countPatternMatches regexCount content pattern false =
        (countOcc p0 ptail content.data : ℤ)) ∧
    (∀ (regexCount : String → Option (String → ℕ)) (content pattern : String),
      regexCount pattern = none →
      countPatternMatches regexCount content pattern true = 0) ∧
    (∀ (regexCount : String → Option (String → ℕ)) (content pattern : String)
        (f : String → ℕ),
      regexCount pattern = some f →
      countPatternMatches regexCount content pattern true = (f content : ℤ)) := by
  refine ⟨fun rc content pattern => rfl, ?_, ?_, ?_⟩
  · intro rc content pattern p0 ptail hp
    rw [countPatternMatches, if_neg (by simp), jsSplit.eq_def, hp]
    rw [jsSplitNE_length p0 ptail content.data.length content.data (le_refl _)]
    simp
  · intro rc content pattern h
    rw [countPatternMatches, if_pos rfl, h]
  · intro rc content pattern f h
    rw [countPatternMatches, if_pos rfl, h]

/-- C8 counterexample: on empty content and empty pattern the literal
branch returns `-1`, which is not a count of occurrences of anything
(it is not a natural number). -/
theorem countPatternMatches_empty_counterexample :
    countPatternMatches (fun _ => none) "" "" false = -1 ∧
    ¬∃ n : ℕ, countPatternMatches (fun _ => none) "" "" false = (n : ℤ) := by
  constructor
  · rfl
  · rintro ⟨n, hn⟩
    rw [show countPatternMatches (fun _ => none) "" "" false = -1 from rfl] at hn
    omega

/-! ## C4 — period filtering -/

/-- C4: `filterFilesByPeriod` with period `all-time` returns the
input unchanged (dated or not); for every other period it returns
exactly the files whose filename yields an extractable date on/after
the start of the period at evaluation time (`getStartOfPeriod`, which
is the start of the current day/week/month/year for the four named
periods), and every file without an extractable date is excluded.
The spec's example: `"01.md"` has no extractable date, so `all-time`
keeps both files and `monthly` keeps only `"2026-01-01.md"`. -/
theorem filterFilesByPeriod_spec :
    (∀ (now : MomentNow) (files : List MdFile),
      filterFilesByPeriod now files "all-time" = files) ∧
    (getStartOfPeriod = fun now period =>
      if period = "daily" then now.startOfDay
      else if period = "weekly" then now.startOfWeek
      else if period = "monthly" then now.startOfMonth
      else if period = "yearly" then now.startOfYear
      else ⟨1970, 1, 1⟩) ∧
    (∀ (now : MomentNow) (files : List MdFile) (period : String),
      period ≠ "all-time" →
      ∀ f : MdFile, f ∈ filterFilesByPeriod now files period ↔
        f ∈ files ∧ ∃ d : CalDate, extractDateFromFilename f.basename = some d ∧
          dateKey (getStartOfPeriod now period) ≤ dateKey d) ∧
    (∀ (now : MomentNow) (files : List MdFile) (period : String) (f : MdFile),
      period ≠ "all-time" → extractDateFromFilename f.basename = none →
      f ∉ filterFilesByPeriod now files period) ∧
    extractDateFromFilename "01" = none ∧
    extractDateFromFilename "2026-01-01" = some ⟨2026, 1, 1⟩ ∧
    (filterFilesByPeriod ⟨⟨2026, 1, 15⟩, ⟨2026, 1, 12⟩, ⟨2026, 1, 1⟩, ⟨2026, 1, 1⟩⟩
      [⟨"01", ""⟩, ⟨"2026-01-01", ""⟩] "all-time" = [⟨"01", ""⟩, ⟨"2026-01-01", ""⟩]) ∧
    (filterFilesByPeriod ⟨⟨2026, 1, 15⟩, ⟨2026, 1, 12⟩, ⟨2026, 1, 1⟩, ⟨2026, 1, 1⟩⟩
      [⟨"01", ""⟩, ⟨"2026-01-01", ""⟩] "monthly" = [⟨"2026-01-01", ""⟩]) := by
  refine ⟨fun now files => rfl, rfl, ?_, ?_, by decide, by decide, by decide, by decide⟩
  · intro now files period hp f
    rw [filterFilesByPeriod, if_neg hp, List.mem_filter]
    constructor
    · rintro ⟨hf, hcond⟩
      refine ⟨hf, ?_⟩
      cases hd : extractDateFromFilename f.basename with
      | none => rw [hd] at hcond; simp at hcond
      | some d =>
        rw [hd] at hcond
        exact ⟨d, rfl, by simpa using hcond⟩
    · rintro ⟨hf, d, hd, hle⟩
      refine ⟨hf, ?_⟩
      rw [hd]
      simpa using hle
  · intro now files period f hp hd hmem
    rw [filterFilesByPeriod, if_neg hp, List.mem_filter, hd] at hmem
    simp at hmem

/-! ## C7 — config validation order and defaults -/

theorem folder_file_clash (s : String) :
    jsStartsWith s "folder:" = true → jsStartsWith s "file:" = false := by
  intro h1
  by_contra h2
  rw [Bool.not_eq_false] at h2
  rw [jsStartsWith, List.isPrefixOf_iff_prefix] at h1 h2
  rcases List.prefix_or_prefix_of_prefix h2 h1 with h | h
  · exact absurd h (by decide)
  · exact absurd h (by decide)

theorem validateSource_shape (s : String) :
    (validateSource s = .error .folderNeedsPath ∨ validateSource s = .error .fileNeedsPath ∨
      validateSource s = .error (.invalidSource s) ∨ ∃ r, validateSource s = .ok r) ∧
    ((∃ r, validateSource s = .ok r) ↔ sourceWellFormed s = true) := by
  rw [validateSource, sourceWellFormed]
  by_cases hc : s = "current-file"
  · simp [hc]
  · by_cases hf : jsStartsWith s "folder:" = true
    · have hf2 := folder_file_clash s hf
      by_cases hp : jsTrim (strDrop s 7) = "" <;> simp [hc, hf, hf2, hp]
    · by_cases hf2 : jsStartsWith s "file:" = true
      · by_cases hp : jsTrim (strDrop s 5) = "" <;>
          simp [hc, hf, hf2, hp]
      · simp [hc, hf, hf2]

/-- C7: validation fails with the distinct `ConfigError`s in exactly
the source's order — missing `type`; missing `source`; malformed
`source` (not `current-file` and not `folder:`/`file:` with a
non-empty path); with table mode detected (`keyColumn` or
`valueColumn` truthy): missing `keyColumn`, then missing
`valueColumn`, then missing `value`; both modes present; neither mode
present — each error firing exactly when every earlier check passes
and its own check fails.  A config passing all checks succeeds with
`period` defaulted to the process-wide default when unset and
`aggregate` defaulted to `"count"` when unset. -/
theorem validateAndDefault_spec : ∀ (c : TrackerConfig) (d : String),
    (validateAndDefault c d = .error .missingType ↔ ¬truthyS c.type = true) ∧
    (validateAndDefault c d = .error .missingSource ↔
      truthyS c.type = true ∧ ¬truthyS c.source = true) ∧
    ((validateAndDefault c d = .error .folderNeedsPath ∨
      validateAndDefault c d = .error .fileNeedsPath ∨
      validateAndDefault c d = .error (.invalidSource (c.source.getD ""))) ↔
      truthyS c.type = true ∧ truthyS c.source = true ∧
        ¬sourceWellFormed (c.source.getD "") = true) ∧
    (let pre := truthyS c.type = true ∧ truthyS c.source = true ∧
        sourceWellFormed (c.source.getD "") = true
     let tm := truthyS c.keyColumn = true ∨ truthyS c.valueColumn = true
     (validateAndDefault c d = .error .keyColumnRequired ↔
        pre ∧ tm ∧ ¬truthyS c.keyColumn = true) ∧
     (validateAndDefault c d = .error .valueColumnRequired ↔
        pre ∧ tm ∧ truthyS c.keyColumn = true ∧ ¬truthyS c.valueColumn = true) ∧
     (validateAndDefault c d = .error .valueRequired ↔
        pre ∧ tm ∧ truthyS c.keyColumn = true ∧ truthyS c.valueColumn = true ∧
          ¬truthyS c.value = true) ∧
     (validateAndDefault c d = .error .bothModes ↔
        pre ∧ tm ∧ truthyS c.keyColumn = true ∧ truthyS c.valueColumn = true ∧
          truthyS c.value = true ∧ truthyS c.pattern = true) ∧
     (validateAndDefault c d = .error .neitherMode ↔
        pre ∧ ¬tm ∧ ¬truthyS c.pattern = true) ∧
     (validateAndDefault c d = .ok { c with
        period := if truthyS c.period then c.period else some d,
        aggregate := if truthyS c.aggregate then c.aggregate else some "count" } ↔
        pre ∧ ((tm ∧ truthyS c.keyColumn = true ∧ truthyS c.valueColumn = true ∧
                 truthyS c.value = true ∧ ¬truthyS c.pattern = true) ∨
               (¬tm ∧ truthyS c.pattern = true)))) := by
  intro c d
  by_cases h1 : truthyS c.type = true
  · by_cases h2 : truthyS c.source = true
    · obtain ⟨hshape, hok⟩ := validateSource_shape (c.source.getD "")
      by_cases hwf : sourceWellFormed (c.source.getD "") = true
      · obtain ⟨r, hr⟩ := hok.mpr hwf
        have hvd : validateAndDefault c d =
            (let isTableMode := truthyS c.keyColumn = true ∨ truthyS c.valueColumn = true
             if isTableMode ∧ ¬truthyS c.keyColumn = true then .error .keyColumnRequired
             else if isTableMode ∧ ¬truthyS c.valueColumn = true then .error .valueColumnRequired
             else if isTableMode ∧ ¬truthyS c.value = true then .error .valueRequired
             else
               let isPatternMode := truthyS c.pattern = true
               if isPatternMode ∧ isTableMode then .error .bothModes
               else if ¬isTableMode ∧ ¬isPatternMode then .error .neitherMode
               else .ok { c with
                 period := if truthyS c.period then c.period else some d,
                 aggregate := if truthyS c.aggregate then c.aggregate else some "count" }) := by
          rw [validateAndDefault, if_neg (by simp [h1]), if_neg (by simp [h2]), hr]
        rw [hvd]
        by_cases hk : truthyS c.keyColumn = true <;>
        by_cases hv : truthyS c.valueColumn = true <;>
        by_cases hval : truthyS c.value = true <;>
        by_cases hp : truthyS c.pattern = true <;>
          simp_all
      · have hcases : validateSource (c.source.getD "") = .error .folderNeedsPath ∨
            validateSource (c.source.getD "") = .error .fileNeedsPath ∨
            validateSource (c.source.getD "") = .error (.invalidSource (c.source.getD "")) := by
          rcases hshape with h | h | h | ⟨r, hr⟩
          · exact Or.inl h
          · exact Or.inr (Or.inl h)
          · exact Or.inr (Or.inr h)
          · exact absurd (hok.mp ⟨r, hr⟩) hwf
        have hvd : ∀ e, validateSource (c.source.getD "") = .error e →
            validateAndDefault c d = .error e := by
          intro e he
          rw [validateAndDefault, if_neg (by simp [h1]), if_neg (by simp [h2]), he]
        rcases hcases with h | h | h <;>
          rw [hvd _ h] <;> simp_all
    · have hvd : validateAndDefault c d = .error .missingSource := by
        rw [validateAndDefault, if_neg (by simp [h1]), if_pos (by simp [h2])]
      rw [hvd]; simp_all
  · have hvd : validateAndDefault c d = .error .missingType := by
      rw [validateAndDefault, if_pos (by simp [h1])]
    rw [hvd]; simp_all

/-! ## C9 — block-level vs widget-level line classification -/

theorem classifyLine_found (bc : BlockConfig) (wl : List String) (line : String) :
    classifyLine ⟨bc, wl, true⟩ line = ⟨applyBlockOnly bc line, wl ++ [line], true⟩ := by
  cases hkv : lineKeyVal line with
  | none => simp [classifyLine, applyBlockOnly, hkv]
  | some kv =>
    obtain ⟨key, value⟩ := kv
    by_cases hb : key ∈ blockOnlyAttrs
    · have hbo : key = "layout" ∨ key = "gridcolumns" ∨ key = "grid_columns" := by
        simpa [blockOnlyAttrs] using hb
      rcases hbo with rfl | rfl | rfl <;>
        simp [classifyLine, applyBlockOnly, hkv, widgetAttrs, blockOnlyAttrs, sharedAttrs]
    · have h1 : ¬key = "layout" := fun heq => by subst heq; exact hb (by decide)
      have h2 : ¬(key = "gridcolumns" ∨ key = "grid_columns") := by
        rintro (heq | heq) <;> (subst heq; exact hb (by decide))
      by_cases hw : key ∈ widgetAttrs
      · simp [classifyLine, applyBlockOnly, hkv, hw, hb, h1, h2]
      · by_cases hs : key ∈ sharedAttrs
        · simp [classifyLine, applyBlockOnly, hkv, hw, hb, hs, h1, h2]
        · simp [classifyLine, applyBlockOnly, hkv, hw, hb, hs, h1, h2]

theorem classifyLine_notFound_widget (bc : BlockConfig) (wl : List String) (line : String)
    (hw : isWidgetLine line = true) :
    classifyLine ⟨bc, wl, false⟩ line = ⟨bc, wl ++ [line], true⟩ := by
  rw [isWidgetLine] at hw
  cases hkv : lineKeyVal line with
  | none => rw [hkv] at hw; simp at hw
  | some kv =>
    obtain ⟨key, value⟩ := kv
    rw [hkv] at hw
    simp only [decide_eq_true_eq] at hw
    simp [classifyLine, hkv, hw]

theorem classifyLine_notFound_other (bc : BlockConfig) (wl : List String) (line : String)
    (hw : isWidgetLine line = false) :
    classifyLine ⟨bc, wl, false⟩ line =
      ⟨applyShared (applyBlockOnly bc line) line, wl, false⟩ := by
  rw [isWidgetLine] at hw
  cases hkv : lineKeyVal line with
  | none => simp [classifyLine, applyBlockOnly, applyShared, hkv]
  | some kv =>
    obtain ⟨key, value⟩ := kv
    rw [hkv] at hw
    simp only [decide_eq_true_eq] at hw
    replace hw : ¬key ∈ widgetAttrs := by simpa using hw
    by_cases hb : key ∈ blockOnlyAttrs
    · have hbo : key = "layout" ∨ key = "gridcolumns" ∨ key = "grid_columns" := by
        simpa [blockOnlyAttrs] using hb
      rcases hbo with rfl | rfl | rfl <;>
        simp [classifyLine, applyBlockOnly, applyShared, hkv, widgetAttrs,
          blockOnlyAttrs, sharedAttrs]
    · have h1 : ¬key = "layout" := fun heq => by subst heq; exact hb (by decide)
      have h2 : ¬(key = "gridcolumns" ∨ key = "grid_columns") := by
        rintro (heq | heq) <;> (subst heq; exact hb (by decide))
      by_cases hs : key ∈ sharedAttrs
      · have hsh : key = "source" ∨ key = "tabletag" ∨ key = "table_tag" := by
          simpa [sharedAttrs] using hs
        rcases hsh with rfl | rfl | rfl <;>
          simp [classifyLine, applyBlockOnly, applyShared, hkv, widgetAttrs,
            blockOnlyAttrs, sharedAttrs]
      · have h3 : ¬key = "source" := fun heq => by subst heq; exact hs (by decide)
        have h4 : ¬(key = "tabletag" ∨ key = "table_tag") := by
          rintro (heq | heq) <;> (subst heq; exact hs (by decide))
        simp [classifyLine, applyBlockOnly, applyShared, hkv, hw, hb, hs, h1, h2, h3, h4]

theorem applyBlockOnly_preserves (bc : BlockConfig) (x : String) :
    (applyBlockOnly bc x).source = bc.source ∧ (applyBlockOnly bc x).tableTag = bc.tableTag := by
  cases hkv : lineKeyVal x with
  | none => simp [applyBlockOnly, hkv]
  | some kv =>
    obtain ⟨k, v⟩ := kv
    simp only [applyBlockOnly, hkv]
    split_ifs <;> simp

theorem applyShared_preserves (bc : BlockConfig) (x : String) :
    (applyShared bc x).layout = bc.layout ∧ (applyShared bc x).gridColumns = bc.gridColumns := by
  cases hkv : lineKeyVal x with
  | none => simp [applyShared, hkv]
  | some kv =>
    obtain ⟨k, v⟩ := kv
    simp only [applyShared, hkv]
    split_ifs <;> simp

theorem applyBlockOnly_congr (x : String) (bc1 bc2 : BlockConfig)
    (h1 : bc1.layout = bc2.layout) (h2 : bc1.gridColumns = bc2.gridColumns) :
    (applyBlockOnly bc1 x).layout = (applyBlockOnly bc2 x).layout ∧
    (applyBlockOnly bc1 x).gridColumns = (applyBlockOnly bc2 x).gridColumns := by
  cases hkv : lineKeyVal x with
  | none => simp [applyBlockOnly, hkv, h1, h2]
  | some kv =>
    obtain ⟨k, v⟩ := kv
    simp only [applyBlockOnly, hkv]
    split_ifs <;> simp [h1, h2]

theorem applyShared_congr (x : String) (bc1 bc2 : BlockConfig)
    (h1 : bc1.source = bc2.source) (h2 : bc1.tableTag = bc2.tableTag) :
    (applyShared bc1 x).source = (applyShared bc2 x).source ∧
    (applyShared bc1 x).tableTag = (applyShared bc2 x).tableTag := by
  cases hkv : lineKeyVal x with
  | none => simp [applyShared, hkv, h1, h2]
  | some kv =>
    obtain ⟨k, v⟩ := kv
    simp only [applyShared, hkv]
    split_ifs <;> simp [h1, h2]

theorem foldl_applyBlockOnly_congr : ∀ (l : List String) (bc1 bc2 : BlockConfig),
    bc1.layout = bc2.layout → bc1.gridColumns = bc2.gridColumns →
    (l.foldl applyBlockOnly bc1).layout = (l.foldl applyBlockOnly bc2).layout ∧
    (l.foldl applyBlockOnly bc1).gridColumns = (l.foldl applyBlockOnly bc2).gridColumns := by
  intro l
  induction l with
  | nil => intro bc1 bc2 h1 h2; exact ⟨h1, h2⟩
  | cons x rest ih =>
    intro bc1 bc2 h1 h2
    obtain ⟨g1, g2⟩ := applyBlockOnly_congr x bc1 bc2 h1 h2
    exact ih _ _ g1 g2

theorem foldl_applyShared_congr : ∀ (l : List String) (bc1 bc2 : BlockConfig),
    bc1.source = bc2.source → bc1.tableTag = bc2.tableTag →
    (l.foldl applyShared bc1).source = (l.foldl applyShared bc2).source ∧
    (l.foldl applyShared bc1).tableTag = (l.foldl applyShared bc2).tableTag := by
  intro l
  induction l with
  | nil => intro bc1 bc2 h1 h2; exact ⟨h1, h2⟩
  | cons x rest ih =>
    intro bc1 bc2 h1 h2
    obtain ⟨g1, g2⟩ := applyShared_congr x bc1 bc2 h1 h2
    exact ih _ _ g1 g2

theorem foldl_applyBlockOnly_preserves : ∀ (l : List String) (bc : BlockConfig),
    (l.foldl applyBlockOnly bc).source = bc.source ∧
    (l.foldl applyBlockOnly bc).tableTag = bc.tableTag := by
  intro l
  induction l with
  | nil => intro bc; exact ⟨rfl, rfl⟩
  | cons x rest ih =>
    intro bc
    obtain ⟨p1, p2⟩ := applyBlockOnly_preserves bc x
    obtain ⟨q1, q2⟩ := ih (applyBlockOnly bc x)
    exact ⟨q1.trans p1, q2.trans p2⟩

theorem widgetLine_noop (bc : BlockConfig) (line : String) (hw : isWidgetLine line = true) :
    applyBlockOnly bc line = bc ∧ applyShared bc line = bc := by
  rw [isWidgetLine] at hw
  cases hkv : lineKeyVal line with
  | none => rw [hkv] at hw; simp at hw
  | some kv =>
    obtain ⟨key, value⟩ := kv
    rw [hkv] at hw
    simp only [decide_eq_true_eq] at hw
    have h1 : ¬key = "layout" := fun heq => by subst heq; exact absurd hw (by decide)
    have h2 : ¬(key = "gridcolumns" ∨ key = "grid_columns") := by
      rintro (heq | heq) <;> (subst heq; exact absurd hw (by decide))
    have h3 : ¬key = "source" := fun heq => by subst heq; exact absurd hw (by decide)
    have h4 : ¬(key = "tabletag" ∨ key = "table_tag") := by
      rintro (heq | heq) <;> (subst heq; exact absurd hw (by decide))
    constructor <;> simp [applyBlockOnly, applyShared, hkv, h1, h2, h3, h4]

theorem classifyLoop_found : ∀ (lines : List String) (bc : BlockConfig) (wl : List String),
    lines.foldl classifyLine ⟨bc, wl, true⟩ =
      ⟨lines.foldl applyBlockOnly bc, wl ++ lines, true⟩ := by
  intro lines
  induction lines with
  | nil => intro bc wl; simp
  | cons line rest ih =>
    intro bc wl
    rw [List.foldl_cons, classifyLine_found, ih, List.foldl_cons]
    simp

theorem classifyLoop_spec : ∀ (lines : List String) (bc : BlockConfig) (wl : List String),
    (lines.foldl classifyLine ⟨bc, wl, false⟩).widgetLines =
      wl ++ lines.drop (lines.findIdx isWidgetLine) ∧
    (lines.foldl classifyLine ⟨bc, wl, false⟩).foundWidgetAttr = lines.any isWidgetLine ∧
    (lines.foldl classifyLine ⟨bc, wl, false⟩).blockConfig.layout =
      (lines.foldl applyBlockOnly bc).layout ∧
    (lines.foldl classifyLine ⟨bc, wl, false⟩).blockConfig.gridColumns =
      (lines.foldl applyBlockOnly bc).gridColumns ∧
    (lines.foldl classifyLine ⟨bc, wl, false⟩).blockConfig.source =
      ((lines.take (lines.findIdx isWidgetLine)).foldl applyShared bc).source ∧
    (lines.foldl classifyLine ⟨bc, wl, false⟩).blockConfig.tableTag =
      ((lines.take (lines.findIdx isWidgetLine)).foldl applyShared bc).tableTag := by
  intro lines
  induction lines with
  | nil => intro bc wl; simp
  | cons line rest ih =>
    intro bc wl
    by_cases hw : isWidgetLine line = true
    · rw [List.foldl_cons, classifyLine_notFound_widget bc wl line hw,
        classifyLoop_found rest bc (wl ++ [line])]
      obtain ⟨hno1, hno2⟩ := widgetLine_noop bc line hw
      refine ⟨?_, ?_, ?_, ?_, ?_, ?_⟩
      · simp [List.findIdx_cons, hw]
      · simp [hw]
      · rw [List.foldl_cons, hno1]
      · rw [List.foldl_cons, hno1]
      · simp only [List.findIdx_cons, hw, cond_true, List.take_zero, List.foldl_nil]
        exact (foldl_applyBlockOnly_preserves rest bc).1
      · simp only [List.findIdx_cons, hw, cond_true, List.take_zero, List.foldl_nil]
        exact (foldl_applyBlockOnly_preserves rest bc).2
    · replace hw : isWidgetLine line = false := by simpa using hw
      rw [List.foldl_cons, classifyLine_notFound_other bc wl line hw]
      obtain ⟨i1, i2, i3, i4, i5, i6⟩ :=
        ih (applyShared (applyBlockOnly bc line) line) wl
      obtain ⟨pb1, pb2⟩ := applyShared_preserves (applyBlockOnly bc line) line
      obtain ⟨ps1, ps2⟩ := applyBlockOnly_preserves bc line
      obtain ⟨cb1, cb2⟩ := foldl_applyBlockOnly_congr rest
        (applyShared (applyBlockOnly bc line) line) (applyBlockOnly bc line) pb1 pb2
      obtain ⟨cs1, cs2⟩ := foldl_applyShared_congr (rest.take (rest.findIdx isWidgetLine))
        (applyShared (applyBlockOnly bc line) line) (applyShared bc line)
        (applyShared_congr line (applyBlockOnly bc line) bc ps1 ps2).1
        (applyShared_congr line (applyBlockOnly bc line) bc ps1 ps2).2
      refine ⟨?_, ?_, ?_, ?_, ?_, ?_⟩
      · rw [i1]; simp [List.findIdx_cons, hw]
      · rw [i2]; simp [hw]
      · rw [i3, List.foldl_cons]; exact cb1
      · rw [i4, List.foldl_cons]; exact cb2
      · rw [i5]
        simp only [List.findIdx_cons, hw, cond_false, List.take_succ_cons, List.foldl_cons]
        exact cs1
      · rw [i6]
        simp only [List.findIdx_cons, hw, cond_false, List.take_succ_cons, List.foldl_cons]
        exact cs2



/-- C9 (amended): scanning the first section of a multi-section block
top-to-bottom, the widget content is exactly the run of lines from
the first widget-marking line on; the `source`/`tableTag` shared
fields of the BlockConfig are populated only by lines *before* the
first widget-marking line; but the block-only fields
`layout`/`gridColumns` are updated by block-only lines *anywhere* in
the section — a `layout:` or `gridColumns:` line after the first
widget-marking line still changes the BlockConfig (and is also kept
in the widget content). -/
theorem parseBlockAndTrackers_amended :
    (∀ lines : List String,
      ((lines.foldl classifyLine {}).widgetLines =
        lines.drop (lines.findIdx isWidgetLine)) ∧
      ((lines.foldl classifyLine {}).blockConfig.layout =
        (lines.foldl applyBlockOnly {}).layout) ∧
      ((lines.foldl classifyLine {}).blockConfig.gridColumns =
        (lines.foldl applyBlockOnly {}).gridColumns) ∧
      ((lines.foldl classifyLine {}).blockConfig.source =
        ((lines.take (lines.findIdx isWidgetLine)).foldl applyShared {}).source) ∧
      ((lines.foldl classifyLine {}).blockConfig.tableTag =
        ((lines.take (lines.findIdx isWidgetLine)).foldl applyShared {}).tableTag)) ∧
    (∀ (source first : String) (rest2 : List String),
      sourceSections source = first :: rest2 → rest2 ≠ [] →
      (parseBlockAndTrackers source).1 =
        ((jsSplitOnChar first '\n').foldl classifyLine {}).blockConfig) := by
  constructor
  · intro lines
    have h := classifyLoop_spec lines {} []
    exact ⟨by simpa using h.1, h.2.2.1, h.2.2.2.1, h.2.2.2.2.1, h.2.2.2.2.2⟩
  · intro source first rest2 hs hne
    rw [parseBlockAndTrackers, hs, if_neg (by simp [hne])]

/-- C9 counterexample: in the block
`"source: A\ntype: counter\nlayout: compact-list\n----\ntype: x"`
the `layout:` line comes *after* the widget-marking `type:` line, yet
the parsed BlockConfig has `layout = some "compact-list"` (the claim
predicts the BlockConfig is no longer changed, i.e. `layout = none`);
the line is simultaneously part of the first widget's content. -/
theorem parseBlockAndTrackers_cex :
    (parseBlockAndTrackers "source: A\ntype: counter\nlayout: compact-list\n----\ntype: x").1 =
      { layout := some "compact-list", gridColumns := none,
        source := some "A", tableTag := none } ∧
    (parseBlockAndTrackers "source: A\ntype: counter\nlayout: compact-list\n----\ntype: x").2 =
      ["type: counter\nlayout: compact-list", "type: x"] := by
  constructor <;> decide

/-! ## C10 — goal-resolution precedence -/

theorem folderGoal_some : ∀ (files : List MdFile) (rc : String → Option (String → ℕ))
    (cfg : TrackerConfig) (acc : FolderAcc) (g : ℚ),
    acc.dynamicGoal = some g →
    ((files.foldl (folderStep rc cfg) acc).dynamicGoal = some g) := by
  intro files rc cfg
  induction files with
  | nil => intro acc g h; exact h
  | cons f rest ih =>
    intro acc g h
    rw [List.foldl_cons]
    apply ih
    simp [folderStep, h]

theorem folderGoal_table : ∀ (files : List MdFile) (rc : String → Option (String → ℕ))
    (cfg : TrackerConfig) (acc : FolderAcc),
    truthyS cfg.pattern = false →
    (files.foldl (folderStep rc cfg) acc).dynamicGoal =
      (acc.dynamicGoal).orElse
        (fun _ => files.findSome? fun f => (extractFromTables f.content cfg).goal) := by
  intro files rc cfg
  induction files with
  | nil =>
    intro acc hp
    cases h : acc.dynamicGoal <;> simp [Option.orElse, h]
  | cons f rest ih =>
    intro acc hp
    rw [List.foldl_cons, ih _ hp, List.findSome?_cons]
    cases h : acc.dynamicGoal with
    | some g =>
      have hstep : (folderStep rc cfg acc f).dynamicGoal = some g := by
        simp [folderStep, hp, h]
      rw [hstep]
      simp [Option.orElse]
    | none =>
      have hstep : (folderStep rc cfg acc f).dynamicGoal =
          (extractFromTables f.content cfg).goal := by
        simp [folderStep, hp, h]
      rw [hstep]
      cases hg : (extractFromTables f.content cfg).goal <;> simp [Option.orElse, hg]

/-- C10: goal precedence differs between the two scan shapes.  For a
single-document table-mode scan the reported goal is the
table-accumulated goal whenever the goal column yielded one, falling
back to the static configured goal only when no table goal was found
(`result.goal ?? config.goal`).  For a folder scan an explicitly
configured static goal always wins, and with no static goal the
reported goal is the table-derived goal of the first file — in
filename order over the period-filtered listing — that has one. -/
theorem goalPrecedence_spec : ∀ (rc : String → Option (String → ℕ)) (cfg : TrackerConfig)
    (content : String) (today : ℤ) (now : MomentNow) (files : List MdFile),
    (truthyS cfg.pattern = false →
      (scanSingleFile rc cfg (some content)).goal =
        ((extractFromTables content cfg).goal).orElse (fun _ => cfg.goal)) ∧
    (∀ g : ℚ, truthyS cfg.pattern = false →
      (extractFromTables content cfg).goal = some g →
      (scanSingleFile rc cfg (some content)).goal = some g) ∧
    (truthyS cfg.pattern = false → (extractFromTables content cfg).goal = none →
      (scanSingleFile rc cfg (some content)).goal = cfg.goal) ∧
    (∀ g : ℚ, cfg.goal = some g → (scanFolder rc today now cfg files).goal = some g) ∧
    (cfg.goal = none → truthyS cfg.pattern = false →
      (scanFolder rc today now cfg files).goal =
        (sortFilesByName (filterFilesByPeriod now files (jsOr cfg.period "all-time"))).findSome?
          (fun f => (extractFromTables f.content cfg).goal)) := by
  intro rc cfg content today now files
  have hsingle : truthyS cfg.pattern = false →
      (scanSingleFile rc cfg (some content)).goal =
        ((extractFromTables content cfg).goal).orElse (fun _ => cfg.goal) := by
    intro hp
    rw [scanSingleFile]
    rw [if_neg (by simp [hp])]
    cases hg : (extractFromTables content cfg).goal <;> simp [Option.orElse, hg]
  refine ⟨hsingle, ?_, ?_, ?_, ?_⟩
  · intro g hp hg
    rw [hsingle hp, hg]
    simp [Option.orElse]
  · intro hp hg
    rw [hsingle hp, hg]
    simp [Option.orElse]
  · intro g hg
    rw [scanFolder]
    exact folderGoal_some _ rc cfg _ g (by simpa using hg)
  · intro hg hp
    rw [scanFolder]
    rw [folderGoal_table _ rc cfg _ hp]
    simp [hg, Option.orElse]

/-! ## C5 — table termination on non-table lines -/

theorem tableLine_newHeader (cfg : TrackerConfig) (st : ScanState) (tline : String)
    (h1 : st.inTable = false) (h2 : st.skippingTable = false)
    (htag : truthyS cfg.tableTag = false)
    (hne : tline ≠ "") (ht : jsStartsWith (jsTrim tline) "|" = true) :
    (scanStep cfg st tline).headerColumns = parseTableCells tline ∧
    (scanStep cfg st tline).inTable = true := by
  rw [scanStep]
  simp only [if_neg hne, ht]
  rw [tableLineStep]
  simp only [h1, h2]
  simp [afterInit, htag, parseHeader]

/-- C5 (amended): every *non-empty* line whose trimmed form does not
start with a pipe, encountered while inside a table or a skipped
table, ends the current table — the scan state afterwards has
`inTable` and `skippingTable` cleared and the header columns empty,
the extracted values and goal untouched — so the next table line is
parsed as the header of a new table (which also re-resolves the
column indices).  The exception the amendment adds: a line that is
*exactly empty* is skipped before the reset branch (`if (!line)
continue`), so it does not end the table; the state is preserved and
a table line after it continues the same table. -/
theorem scanStep_reset : ∀ (cfg : TrackerConfig) (st : ScanState) (line : String),
    (line ≠ "" → jsStartsWith (jsTrim line) "|" = false →
      (scanStep cfg st line).inTable = false ∧
      (scanStep cfg st line).skippingTable = false ∧
      ((st.inTable = true ∨ st.skippingTable = true) →
        (scanStep cfg st line).headerColumns = []) ∧
      (scanStep cfg st line).values = st.values ∧
      (scanStep cfg st line).goal = st.goal ∧
      (∀ tline : String, tline ≠ "" → jsStartsWith (jsTrim tline) "|" = true →
        truthyS cfg.tableTag = false →
        (scanStep cfg (scanStep cfg st line) tline).headerColumns = parseTableCells tline ∧
        (scanStep cfg (scanStep cfg st line) tline).inTable = true)) ∧
    (scanStep cfg st "" = { st with recentLines := pushRecent st.recentLines "" }) := by
  intro cfg st line
  constructor
  · intro hne hnt
    have hstep : scanStep cfg st line =
        (if st.inTable ∨ st.skippingTable then
          { st with recentLines := pushRecent st.recentLines line,
                    inTable := false, skippingTable := false, headerColumns := [] }
         else { st with recentLines := pushRecent st.recentLines line }) := by
      rw [scanStep]
      simp only [if_neg hne, hnt]
      rw [if_neg (by simp)]
    by_cases hin : st.inTable ∨ st.skippingTable
    · rw [hstep, if_pos hin]
      refine ⟨rfl, rfl, fun _ => rfl, rfl, rfl, ?_⟩
      intro tline htne htl htag
      exact tableLine_newHeader cfg _ tline rfl rfl htag htne htl
    · rw [hstep, if_neg hin]
      push_neg at hin
      obtain ⟨hi, hs⟩ := hin
      refine ⟨by simpa using hi, by simpa using hs, ?_, rfl, rfl, ?_⟩
      · rintro (h | h)
        · exact absurd h (by simpa using hi)
        · exact absurd h (by simpa using hs)
      · intro tline htne htl htag
        exact tableLine_newHeader cfg _ tline (by simpa using hi) (by simpa using hs)
          htag htne htl
  · rw [scanStep]
    simp

/-- C5 counterexample: in `"| H |\n\n| 5 |"` the empty line does not
end the table, so `"| 5 |"` is treated as a data row of the existing
table (one value extracted, the trimmed cell `"5"` passed to value
extraction) — the claim predicts it would be the header of a new
table, extracting nothing, which is what actually happens only for a
non-empty non-table line such as `"x"`. -/
theorem scanStep_emptyLine_cex :
    (extractFromTables "| H |\n\n| 5 |"
      { valueColumn := some "H", value := some "numeric" }).values.length = 1 ∧
    (extractFromTables "| H |\nx\n| 5 |"
      { valueColumn := some "H", value := some "numeric" }).values.length = 0 ∧
    (extractFromTables "| H |\n\n| 5 |"
      { valueColumn := some "H", value := some "numeric" }).values =
      [extractValue "5" "numeric"].reduceOption := by
  refine ⟨by decide, by decide, by rfl⟩

/-! ## C6 — separator rows and data rows -/

theorem tableLineStep_body (cfg : TrackerConfig) (st : ScanState) (line : String)
    (h1 : st.inTable = true) (h2 : st.skippingTable = false) (h3 : st.headerColumns ≠ []) :
    tableLineStep cfg st line =
      (if jsIncludes line "---" then st else dataRow cfg st line) := by
  have hc : ¬(¬True ∧ ¬false = true) := by simp
  have hc2 : ¬(st.skippingTable = true) := by simp [h2]
  rw [tableLineStep]
  simp only [h1, h2]
  rw [if_neg hc, afterInit, if_neg hc2, if_neg h3]

theorem dataRowGoal_values (cells : List String) (st : ScanState) :
    (dataRowGoal cells st).values = st.values := by
  rw [dataRowGoal]
  cases st.goalColumnIndex with
  | none => rfl
  | some gi =>
    dsimp only
    by_cases h : gi < cells.length
    · rw [if_pos h]
      cases jsParseFloat (jsTrim (cells.getD gi "")) <;> rfl
    · rw [if_neg h]

theorem extractValue_empty (t : String) : extractValue "" t = none := by
  rw [extractValue, if_pos rfl]

theorem dataRowValue_values (cfg : TrackerConfig) (cells : List String) (st : ScanState) :
    (dataRowValue cfg cells st).values = st.values ++
      (match st.valueColumnIndex with
       | some vi => (extractValue (jsTrim (cells.getD vi "")) (jsOr cfg.value "any")).toList
       | none => []) ∧
    (dataRowValue cfg cells st).goal = st.goal ∧
    (dataRowValue cfg cells st).goalColumnIndex = st.goalColumnIndex := by
  rw [dataRowValue]
  cases hvi : st.valueColumnIndex with
  | none => simp
  | some vi =>
    dsimp only
    by_cases h : vi < cells.length
    · rw [if_pos h]
      cases hx : extractValue (jsTrim (cells.getD vi "")) (jsOr cfg.value "any") <;> simp [hx]
    · rw [if_neg h]
      have hd : cells.getD vi "" = "" := by
        rw [List.getD_eq_getElem?_getD]
        rw [List.getElem?_eq_none (by omega)]
        rfl
      rw [hd]
      have h2 : jsTrim "" = "" := rfl
      rw [h2, extractValue_empty]
      simp

/-- C6 (amended): within a non-skipped table, every table line after
the header that contains `---` *anywhere in the table, not only
immediately after the header,* is treated as a separator row and
skipped (state unchanged).  Every other subsequent table line is a
data row: split into cells; skipped exactly when a key filter is set
and the key-column cell does not exist (unresolved or out-of-range
index) or is empty or does not contain the filter text as a
substring; otherwise its value-column cell (trimmed; missing or
out-of-range yields the empty string) is passed to value extraction
and a non-null result is appended to the output value sequence. -/
theorem separator_dataRow_amended (cfg : TrackerConfig) (st : ScanState) (line : String)
    (h1 : st.inTable = true) (h2 : st.skippingTable = false)
    (h3 : st.headerColumns ≠ []) (h4 : line ≠ "")
    (h5 : jsStartsWith (jsTrim line) "|" = true) :
    (jsIncludes line "---" = true →
      scanStep cfg st line = { st with recentLines := pushRecent st.recentLines line }) ∧
    (jsIncludes line "---" = false →
      (rowKeyPasses cfg st.keyColumnIndex (parseTableCells line) = false →
        (scanStep cfg st line).values = st.values ∧
        (scanStep cfg st line).goal = st.goal) ∧
      (rowKeyPasses cfg st.keyColumnIndex (parseTableCells line) = true →
        (scanStep cfg st line).values = st.values ++
          (match st.valueColumnIndex with
           | some vi => (extractValue (jsTrim ((parseTableCells line).getD vi ""))
               (jsOr cfg.value "any")).toList
           | none => []))) ∧
    (rowKeyPasses cfg st.keyColumnIndex (parseTableCells line) = true ↔
      (truthyS cfg.key = false ∨
       ∃ ki, st.keyColumnIndex = some ki ∧ ki < (parseTableCells line).length ∧
         (parseTableCells line).getD ki "" ≠ "" ∧
         jsIncludes ((parseTableCells line).getD ki "") (cfg.key.getD "") = true)) := by
  have hstep : scanStep cfg st line =
      (if jsIncludes line "---" then
        { st with recentLines := pushRecent st.recentLines line }
       else dataRow cfg { st with recentLines := pushRecent st.recentLines line } line) := by
    rw [scanStep]
    simp only [if_neg h4, h5]
    rw [if_pos trivial]
    exact tableLineStep_body cfg _ line h1 h2 h3
  refine ⟨?_, ?_, ?_⟩
  · intro hsep
    rw [hstep, if_pos (by simp [hsep])]
  · intro hsep
    rw [hstep, if_neg (by simp [hsep])]
    rw [dataRow]
    dsimp only
    constructor
    · intro hfail
      rw [if_pos (by simp [hfail])]
      exact ⟨rfl, rfl⟩
    · intro hpass
      rw [if_neg (by simp [hpass])]
      rw [dataRowGoal_values]
      have hv := (dataRowValue_values cfg (parseTableCells line)
        { st with recentLines := pushRecent st.recentLines line }).1
      rw [hv]
  · rw [rowKeyPasses.eq_def]
    by_cases hk : truthyS cfg.key = true
    · rw [if_pos hk]
      cases hki : st.keyColumnIndex with
      | none => simp [hk]
      | some ki =>
        dsimp only
        by_cases hlt : ki < (parseTableCells line).length
        · rw [if_pos hlt]
          simp only [hk, Bool.true_eq_false, false_or]
          constructor
          · intro h
            simp only [decide_eq_true_eq, Bool.and_eq_true] at h
            exact ⟨ki, rfl, hlt, by simpa using h.1, by simpa using h.2⟩
          · rintro ⟨ki2, hki2, hlt2, hne2, hinc2⟩
            obtain rfl : ki2 = ki := by injection hki2 with h; exact h.symm
            simp only [decide_eq_true_eq, Bool.and_eq_true]
            exact ⟨by simpa using hne2, by simpa using hinc2⟩
        · rw [if_neg hlt]
          simp only [hk, Bool.true_eq_false, false_or]
          constructor
          · intro h; simp at h
          · rintro ⟨ki2, hki2, hlt2, h1x, h2x⟩
            obtain rfl : ki2 = ki := by injection hki2 with h; exact h.symm
            exact absurd hlt2 hlt
    · rw [if_neg hk]
      simp only [true_iff]
      left
      simpa using hk

/-- C6 counterexample: in
`"| H |\n|---|\n| 5 |\n| 1---2 |"` the last row contains `---` in a
cell and is *not* immediately after the header, yet it is skipped
(one extracted value instead of two) although numeric extraction on
its cell would have yielded a value; replacing `1---2` by `1--2`
shows the row is otherwise processed as a data row. -/
theorem separator_anywhere_cex :
    (extractFromTables "| H |\n|---|\n| 5 |\n| 1---2 |"
      { valueColumn := some "H", value := some "numeric" }).values.length = 1 ∧
    (extractValue "1---2" "numeric").isSome = true ∧
    (extractFromTables "| H |\n|---|\n| 5 |\n| 1--2 |"
      { valueColumn := some "H", value := some "numeric" }).values.length = 2 := by
  refine ⟨by decide, by decide, by decide⟩

/-- Witness for the amended C6 at a concrete separator-like data row. -/
theorem separator_dataRow_amended_witness :
    (jsIncludes "| 1---2 |" "---" = true →
      scanStep { valueColumn := some "H", value := some "numeric" }
          ⟨[], none, true, false, ["H"], none, some 0, none, []⟩ "| 1---2 |" =
        { (⟨[], none, true, false, ["H"], none, some 0, none, []⟩ : ScanState) with
            recentLines := pushRecent [] "| 1---2 |" }) ∧
    (jsIncludes "| 1---2 |" "---" = false →
      (rowKeyPasses { valueColumn := some "H", value := some "numeric" }
          (none : Option ℕ) (parseTableCells "| 1---2 |") = false →
        (scanStep { valueColumn := some "H", value := some "numeric" }
          ⟨[], none, true, false, ["H"], none, some 0, none, []⟩ "| 1---2 |").values = [] ∧
        (scanStep { valueColumn := some "H", value := some "numeric" }
          ⟨[], none, true, false, ["H"], none, some 0, none, []⟩ "| 1---2 |").goal = none) ∧
      (rowKeyPasses { valueColumn := some "H", value := some "numeric" }
          (none : Option ℕ) (parseTableCells "| 1---2 |") = true →
        (scanStep { valueColumn := some "H", value := some "numeric" }
          ⟨[], none, true, false, ["H"], none, some 0, none, []⟩ "| 1---2 |").values =
          [] ++ (match (some 0 : Option ℕ) with
           | some vi => (extractValue (jsTrim ((parseTableCells "| 1---2 |").getD vi ""))
               (jsOr (some "numeric") "any")).toList
           | none => []))) ∧
    (rowKeyPasses { valueColumn := some "H", value := some "numeric" }
        (none : Option ℕ) (parseTableCells "| 1---2 |") = true ↔
      (truthyS (none : Option String) = false ∨
       ∃ ki, (none : Option ℕ) = some ki ∧ ki < (parseTableCells "| 1---2 |").length ∧
         (parseTableCells "| 1---2 |").getD ki "" ≠ "" ∧
         jsIncludes ((parseTableCells "| 1---2 |").getD ki "")
           ((none : Option String).getD "") = true)) := by
  exact separator_dataRow_amended { valueColumn := some "H", value := some "numeric" }
    ⟨[], none, true, false, ["H"], none, some 0, none, []⟩ "| 1---2 |"
    rfl rfl (by decide) (by decide) (by decide)

/-! ## C3 — streak calculation -/

theorem sortDesc_sorted (dates : List ℤ) :
    (sortDesc dates).Pairwise (fun a b => b ≤ a) :=
  List.sorted_insertionSort (fun a b => b ≤ a) dates

theorem mem_sortDesc (dates : List ℤ) (a : ℤ) : a ∈ sortDesc dates ↔ a ∈ dates :=
  List.mem_insertionSort (fun a b => b ≤ a)

theorem dedupAdj_spec : ∀ (l : List ℤ) (prev : ℤ),
    (prev :: l).Pairwise (fun a b => b ≤ a) →
    ((dedupAdj prev l).Pairwise (fun a b => b < a) ∧
     (∀ a : ℤ, a ∈ dedupAdj prev l ↔ a ∈ l ∧ a ≠ prev) ∧
     (∀ a ∈ dedupAdj prev l, a < prev)) := by
  intro l
  induction l with
  | nil => intro prev _; refine ⟨List.Pairwise.nil, by simp [dedupAdj], by simp [dedupAdj]⟩
  | cons y rest ih =>
    intro prev hp
    have hpy : y ≤ prev := (List.pairwise_cons.mp hp).1 y (List.mem_cons_self y rest)
    have htail : (y :: rest).Pairwise (fun a b => b ≤ a) := (List.pairwise_cons.mp hp).2
    have hyrest : ∀ a ∈ rest, a ≤ y := (List.pairwise_cons.mp htail).1
    obtain ⟨ih1, ih2, ih3⟩ := ih y htail
    by_cases hy : y = prev
    · rw [dedupAdj, if_pos hy]
      refine ⟨ih1, ?_, ?_⟩
      · intro a
        rw [ih2 a]
        subst hy
        constructor
        · rintro ⟨ha, hne⟩; exact ⟨List.mem_cons_of_mem y ha, hne⟩
        · rintro ⟨ha, hne⟩
          rcases List.mem_cons.mp ha with rfl | ha
          · exact absurd rfl hne
          · exact ⟨ha, hne⟩
      · intro a ha
        subst hy
        exact ih3 a ha
    · rw [dedupAdj, if_neg hy]
      have hylt : y < prev := lt_of_le_of_ne hpy hy
      refine ⟨?_, ?_, ?_⟩
      · exact List.pairwise_cons.mpr ⟨fun a ha => ih3 a ha, ih1⟩
      · intro a
        constructor
        · intro ha
          rcases List.mem_cons.mp ha with rfl | ha
          · exact ⟨List.mem_cons_self a rest, hy⟩
          · obtain ⟨har, hane⟩ := (ih2 a).mp ha
            refine ⟨List.mem_cons_of_mem y har, ?_⟩
            intro heq
            subst heq
            exact absurd (lt_of_le_of_lt (hyrest _ har) hylt) (lt_irrefl _)
        · rintro ⟨ha, hane⟩
          rcases List.mem_cons.mp ha with rfl | ha
          · exact List.mem_cons_self a _
          · by_cases hay : a = y
            · subst hay; exact List.mem_cons_self a _
            · exact List.mem_cons_of_mem y ((ih2 a).mpr ⟨ha, hay⟩)
      · intro a ha
        rcases List.mem_cons.mp ha with rfl | ha
        · exact hylt
        · exact lt_trans (ih3 a ha) hylt

theorem streakWalk_spec : ∀ (l : List ℤ), l.Pairwise (fun a b => b < a) → ∀ c : ℤ,
    (∀ k : ℕ, k < streakWalk l c → (c - (k : ℤ)) ∈ l) ∧
    ((c - (streakWalk l c : ℤ)) ∉ l) := by
  intro l
  induction l with
  | nil =>
    intro _ c
    exact ⟨fun k hk => absurd hk (by simp [streakWalk]), by simp [streakWalk]⟩
  | cons d rest ih =>
    intro hp c
    have hdrest : ∀ a ∈ rest, a < d := (List.pairwise_cons.mp hp).1
    have htail : rest.Pairwise (fun a b => b < a) := (List.pairwise_cons.mp hp).2
    by_cases hd : d = c
    · subst hd
      rw [streakWalk, if_pos rfl]
      obtain ⟨ih1, ih2⟩ := ih htail (d - 1)
      constructor
      · intro k hk
        match k with
        | 0 => simp only [Nat.cast_zero, sub_zero]; exact List.mem_cons_self d rest
        | j + 1 =>
          have hj : j < streakWalk rest (d - 1) := by omega
          have := ih1 j hj
          have heq : d - ((j : ℤ) + 1) = d - 1 - (j : ℤ) := by ring
          push_cast
          rw [heq]
          exact List.mem_cons_of_mem d this
      · intro hmem
        rcases List.mem_cons.mp hmem with heq | hmem2
        · have hge : (0 : ℤ) ≤ (streakWalk rest (d - 1) : ℤ) := Int.ofNat_nonneg _
          push_cast at heq ⊢
          omega
        · have heq : d - ((streakWalk rest (d - 1) : ℤ) + 1) =
              d - 1 - (streakWalk rest (d - 1) : ℤ) := by ring
          rw [show ((streakWalk rest (d-1) + 1 : ℕ) : ℤ) =
            (streakWalk rest (d-1) : ℤ) + 1 by push_cast; ring, heq] at hmem2
          exact ih2 hmem2
    · rw [streakWalk, if_neg hd]
      by_cases hlt : d < c
      · rw [if_pos hlt]
        refine ⟨fun k hk => absurd hk (by omega), ?_⟩
        intro hmem
        simp only [Nat.cast_zero, sub_zero] at hmem
        rcases List.mem_cons.mp hmem with heq | hmem2
        · exact hd heq.symm
        · exact absurd (hdrest c hmem2) (by omega)
      · rw [if_neg hlt]
        have hdgt : c < d := by
          rcases lt_trichotomy c d with h | h | h
          · exact h
          · exact absurd h.symm hd
          · exact absurd h hlt
        obtain ⟨ih1, ih2⟩ := ih htail c
        constructor
        · intro k hk
          exact List.mem_cons_of_mem d (ih1 k hk)
        · intro hmem
          rcases List.mem_cons.mp hmem with heq | hmem2
          · have hge : (0 : ℤ) ≤ (streakWalk rest c : ℤ) := Int.ofNat_nonneg _
            omega
          · exact ih2 hmem2

theorem calculateStreak_walkList : ∀ (dates : List ℤ), dates ≠ [] →
    (dedupSorted (sortDesc dates)).Pairwise (fun a b => b < a) ∧
    (∀ a : ℤ, a ∈ dedupSorted (sortDesc dates) ↔ a ∈ dates) := by
  intro dates hne
  have hsorted := sortDesc_sorted dates
  cases hs : sortDesc dates with
  | nil =>
    exfalso
    obtain ⟨x, hx⟩ := List.exists_mem_of_ne_nil dates hne
    have := (mem_sortDesc dates x).mpr hx
    rw [hs] at this
    simp at this
  | cons x rest =>
    rw [hs] at hsorted
    obtain ⟨p1, p2, p3⟩ := dedupAdj_spec rest x hsorted
    rw [dedupSorted]
    constructor
    · exact List.pairwise_cons.mpr ⟨p3, p1⟩
    · intro a
      have hmem : a ∈ x :: rest ↔ a ∈ dates := by
        rw [← hs]; exact mem_sortDesc dates a
      constructor
      · intro ha
        rcases List.mem_cons.mp ha with rfl | ha
        · exact hmem.mp (List.mem_cons_self a rest)
        · exact hmem.mp (List.mem_cons_of_mem x ((p2 a).mp ha).1)
      · intro ha
        rcases List.mem_cons.mp (hmem.mpr ha) with rfl | ha2
        · exact List.mem_cons_self a _
        · by_cases hax : a = x
          · subst hax; exact List.mem_cons_self a _
          · exact List.mem_cons_of_mem x ((p2 a).mpr ⟨ha2, hax⟩)

/-- C3: `calculateStreak` deduplicates and sorts the day-normalized
dates and counts consecutive calendar days anchored at today: the
result `n` is the unique number such that today, today−1, …,
today−(n−1) are all present and today−n is absent (the walk stops at
the first gap); in particular a date set not containing today yields
streak 0, and the spec's example holds: `[today, today−1, today−2]`
gives 3 while `[today−1, today−2]` gives 0. -/
theorem calculateStreak_spec : ∀ (today : ℤ) (dates : List ℤ),
    (∀ k : ℕ, k < calculateStreak today dates → (today - (k : ℤ)) ∈ dates) ∧
    ((today - (calculateStreak today dates : ℤ)) ∉ dates) ∧
    (∀ m : ℕ, (∀ k : ℕ, k < m → (today - (k : ℤ)) ∈ dates) →
      (today - (m : ℤ)) ∉ dates → m = calculateStreak today dates) ∧
    (today ∉ dates → calculateStreak today dates = 0) ∧
    calculateStreak 0 [0, -1, -2] = 3 ∧
    calculateStreak 0 [-1, -2] = 0 := by
  intro today dates
  have main : (∀ k : ℕ, k < calculateStreak today dates → (today - (k : ℤ)) ∈ dates) ∧
      ((today - (calculateStreak today dates : ℤ)) ∉ dates) := by
    by_cases hne : dates = []
    · subst hne
      rw [calculateStreak, if_pos rfl]
      exact ⟨fun k hk => absurd hk (by omega), by simp⟩
    · obtain ⟨hpw, hmem⟩ := calculateStreak_walkList dates hne
      obtain ⟨w1, w2⟩ := streakWalk_spec (dedupSorted (sortDesc dates)) hpw today
      rw [calculateStreak, if_neg hne]
      constructor
      · intro k hk
        exact (hmem _).mp (w1 k hk)
      · intro hcontra
        exact w2 ((hmem _).mpr hcontra)
  obtain ⟨m1, m2⟩ := main
  refine ⟨m1, m2, ?_, ?_, by decide, by decide⟩
  · intro m hall habs
    rcases lt_trichotomy m (calculateStreak today dates) with h | h | h
    · exact absurd (m1 m h) habs
    · exact h
    · exact absurd (hall _ h) m2
  · intro htoday
    by_contra hpos
    have h0 : 0 < calculateStreak today dates := Nat.pos_of_ne_zero hpos
    have := m1 0 h0
    simp only [Nat.cast_zero, sub_zero] at this
    exact htoday this
